import Mathlib

/-!
# Verification of the mcp-file-operations-server Patch Engine

Shallow embedding of `src/services/PatchService.ts` (`PatchServiceImpl`) and of
the pieces of `FileService.ts` and `config/defaults.ts` it relies on.
JavaScript strings are modelled as `List Char`; the file system as an
association list from paths to contents; thrown exceptions as `Except String`.
-/

set_option maxHeartbeats 1000000

namespace FileOps

/-- JavaScript strings are modelled as lists of characters. -/
abbrev Str := List Char

/-- The character class `\w` of JavaScript regular expressions:
`[A-Za-z0-9_]`. -/
def isWordChar (c : Char) : Bool :=
  (decide ('a' ≤ c) && decide (c ≤ 'z')) ||
  (decide ('A' ≤ c) && decide (c ≤ 'Z')) ||
  (decide ('0' ≤ c) && decide (c ≤ '9')) ||
  c == '_'

/-- The character class `\s` of JavaScript regular expressions
(ECMAScript WhiteSpace and LineTerminator code points). -/
def isJsSpace (c : Char) : Bool :=
  c == ' ' || c == '\t' || c == '\n' || c == '\r' ||
  c == '\u000b' || c == '\u000c' || c == ' ' || c == ' ' ||
  (decide (0x2000 ≤ c.toNat) && decide (c.toNat ≤ 0x200a)) ||
  c == ' ' || c == ' ' || c == ' ' || c == ' ' ||
  c == '　' || c == '﻿'

/-- Space or tab, the class `[ \t]` used by the normalizer's regexes. -/
def isST (c : Char) : Bool := c == ' ' || c == '\t'

/-- The three token classes of the tokenizer regex `\s+|\w+|[^\s\w]+`:
whitespace, word characters, and non-word non-whitespace symbols. -/
inductive CharClass | ws | word | sym
deriving DecidableEq, Repr

/-- Class of a single character.  The three classes partition `Char`. -/
def classOf (c : Char) : CharClass :=
  if isJsSpace c then .ws else if isWordChar c then .word else .sym

/-- Class of a token, read off its first character (tokens are nonempty). -/
def tokHeadClass (t : Str) : CharClass := classOf (t.headD ' ')

/-- `PatchServiceImpl.tokenize`: `content.match(/\s+|\w+|[^\s\w]+/g) || []`.
Because the three alternatives partition all characters and each is greedy,
the match sequence consists of the maximal same-class runs of the input,
taken left to right. -/
def tokenize : Str → List Str
  | [] => []
  | c :: rest =>
    (c :: rest.takeWhile (fun d => classOf d == classOf c)) ::
      tokenize (rest.dropWhile (fun d => classOf d == classOf c))
termination_by s => s.length
decreasing_by
  simp only [List.length_cons]
  have : (rest.dropWhile (fun d => classOf d == classOf c)).length ≤ rest.length :=
    List.Sublist.length_le (List.dropWhile_sublist _)
  omega
/-! ## Edit distance: `PatchServiceImpl.calculateSimilarity`

The source fills a `(len1+1) × (len2+1)` dynamic-programming matrix with
`matrix[i][j] = matrix[i-1][j-1]` when `tokens1[i-1] === tokens2[j-1]` and
`min(diag+1, left+1, up+1)` otherwise, and returns
`1 - matrix[len1][len2] / max(len1, len2)`.  We embed the matrix recurrence
as `levMatrix` and prove it computes the classic Levenshtein distance. -/

section EditDistance

variable {α : Type} [DecidableEq α]

/-- Substitution cost of the classic edit distance. -/
def subCost (x y : α) : ℕ := if x = y then 0 else 1

/-- Classic Levenshtein edit distance with insertion, deletion and
substitution each of cost 1 (the specification-level notion). -/
def levenshtein : List α → List α → ℕ
  | [], ys => ys.length
  | x :: xs, [] => (x :: xs).length
  | x :: xs, y :: ys =>
      min (levenshtein xs ys + subCost x y)
        (min (levenshtein (x :: xs) ys + 1) (levenshtein xs (y :: ys) + 1))
termination_by xs ys => xs.length + ys.length
decreasing_by all_goals simp only [List.length_cons]; omega

end EditDistance

section EditDistance

variable {α : Type} [DecidableEq α]

/-- Entry `(i, j)` of the matrix filled by `calculateSimilarity`:
row 0 is `0..len2`, column 0 is `0..len1`, and each inner cell is the
diagonal entry when `tokens1[i-1] === tokens2[j-1]`, otherwise
`min(diag + 1, left + 1, up + 1)`. -/
def levMatrix (t1 t2 : List α) : ℕ → ℕ → ℕ
  | 0, j => j
  | i + 1, 0 => i + 1
  | i + 1, j + 1 =>
    if t1[i]? = t2[j]? then levMatrix t1 t2 i j
    else
      min (levMatrix t1 t2 i j + 1)
        (min (levMatrix t1 t2 (i + 1) j + 1) (levMatrix t1 t2 i (j + 1) + 1))
termination_by i j => i + j
decreasing_by all_goals omega

end EditDistance

/-- `this.SIMILARITY_THRESHOLD = 0.8`. -/
def SIMILARITY_THRESHOLD : ℚ := 0.8

/-- A JavaScript `RegExp` as the patch service uses it: only its source
text is ever inspected by the fuzzy matcher, and the only patterns whose
matching semantics are exercised are the synthesized block patterns
(handled structurally below). -/
structure RegExpM where
  source : Str
deriving DecidableEq, Repr

/-- `PatchServiceImpl.calculateSimilarity` applied to two token arrays.
When both arrays are empty the JavaScript code divides `0 / 0`, producing
`NaN`; that case is modelled as `none`. -/
def calculateSimilarity (tokens1 tokens2 : List Str) : Option ℚ :=
  let maxLength := max tokens1.length tokens2.length
  if maxLength = 0 then none
  else
    some (1 - (levMatrix tokens1 tokens2 tokens1.length tokens2.length : ℚ) / maxLength)

/-- `PatchServiceImpl.matchesWithTokens`: tokenize the content and the
pattern's source and accept when the similarity reaches the threshold
(a `NaN` score compares false in JavaScript). -/
def matchesWithTokens (content : Str) (pattern : RegExpM) : Bool :=
  let contentTokens := tokenize content
  let patternTokens := tokenize pattern.source
  match calculateSimilarity contentTokens patternTokens with
  | none => false
  | some q => decide (SIMILARITY_THRESHOLD ≤ q)

/-! ## Longest common subsequence: `PatchServiceImpl.findLCS`

The source fills an LCS length matrix (`max` recurrence, `+1` on token
equality) and then reconstructs the subsequence by walking back from the
bottom-right corner, prepending the shared token when the current cells
match and otherwise moving towards the larger neighbouring cell. -/

section LCS

variable {α : Type} [DecidableEq α]

/-- Entry `(i, j)` of the LCS matrix built by `findLCS`. -/
def lcsLen (t1 t2 : List α) : ℕ → ℕ → ℕ
  | 0, _ => 0
  | _ + 1, 0 => 0
  | i + 1, j + 1 =>
    if t1[i]? = t2[j]? then lcsLen t1 t2 i j + 1
    else max (lcsLen t1 t2 i (j + 1)) (lcsLen t1 t2 (i + 1) j)
termination_by i j => i + j
decreasing_by all_goals omega

/-- The reconstruction loop of `findLCS` (the `while (i > 0 && j > 0)`
walk with `unshift`), expressed from cell `(i, j)`. -/
def lcsWalk (t1 t2 : List α) : ℕ → ℕ → List α
  | 0, _ => []
  | _ + 1, 0 => []
  | i + 1, j + 1 =>
    if t1[i]? = t2[j]? then
      lcsWalk t1 t2 i j ++ (t1[i]?).toList
    else if lcsLen t1 t2 i (j + 1) > lcsLen t1 t2 (i + 1) j then
      lcsWalk t1 t2 i (j + 1)
    else lcsWalk t1 t2 (i + 1) j
termination_by i j => i + j
decreasing_by all_goals omega

/-- `PatchServiceImpl.findLCS`. -/
def findLCS (tokens1 tokens2 : List α) : List α :=
  lcsWalk tokens1 tokens2 tokens1.length tokens2.length

end LCS

/-- `PatchServiceImpl.findCommonAncestor`: join the token-level LCS of
the two contents back into a single string. -/
def findCommonAncestor (content1 content2 : Str) : Str :=
  (findLCS (tokenize content1) (tokenize content2)).flatten

/-- JavaScript `a || b` on possibly-undefined strings: `undefined` and
the empty string are falsy. -/
def jsOrStr (a b : Option Str) : Option Str :=
  match a with
  | none => b
  | some s => if s = [] then b else some s

/-- JavaScript `array.join('')` where the array may contain `undefined`
entries (which stringify to the empty string under `join`). -/
def joinJs (l : List (Option Str)) : Str :=
  (l.map (fun o => o.getD [])).flatten

/-- The loop of `PatchServiceImpl.performThreeWayMerge`: while any of the
three token streams has elements left, compare `currentTokens[j]`,
`targetTokens[k]` and `baseTokens[i]` (JavaScript `===`, where two
out-of-range reads are both `undefined` and hence equal), push one token
(or `undefined`) onto `merged`, record a conflict in the final case, and
advance all three indices. -/
def mergeLoop (baseTokens currentTokens targetTokens : List Str)
    (i j k : ℕ) (merged : List (Option Str)) (conflicts : List String) :
    List (Option Str) × List String :=
  if h : i < baseTokens.length ∨ j < currentTokens.length ∨ k < targetTokens.length then
    if currentTokens[j]? = targetTokens[k]? then
      mergeLoop baseTokens currentTokens targetTokens (i + 1) (j + 1) (k + 1)
        (merged ++ [currentTokens[j]?]) conflicts
    else if currentTokens[j]? = baseTokens[i]? then
      mergeLoop baseTokens currentTokens targetTokens (i + 1) (j + 1) (k + 1)
        (merged ++ [targetTokens[k]?]) conflicts
    else if targetTokens[k]? = baseTokens[i]? then
      mergeLoop baseTokens currentTokens targetTokens (i + 1) (j + 1) (k + 1)
        (merged ++ [currentTokens[j]?]) conflicts
    else
      mergeLoop baseTokens currentTokens targetTokens (i + 1) (j + 1) (k + 1)
        (merged ++ [jsOrStr currentTokens[j]? targetTokens[k]?])
        (conflicts ++ ["Conflict at position " ++ toString merged.length])
  else (merged, conflicts)
termination_by (baseTokens.length - i) + (currentTokens.length - j) + (targetTokens.length - k)
decreasing_by all_goals omega

/-- `PatchServiceImpl.performThreeWayMerge`: tokenize the three contents,
walk them with `mergeLoop`, and join the merged stream. -/
def performThreeWayMerge (base current target : Str) : Str × List String :=
  let baseTokens := tokenize base
  let currentTokens := tokenize current
  let targetTokens := tokenize target
  let (merged, conflicts) := mergeLoop baseTokens currentTokens targetTokens 0 0 0 [] []
  (joinJs merged, conflicts)

/-- One step of the merge walk exactly as the specification sentence
describes it: agreement keeps the current token, a current-side match
with base takes the target token, a target-side match with base keeps the
current token, and anything else records a conflict and emits the current
token, falling back to the target token when current is exhausted.
Returns the emitted token and whether a conflict is recorded. -/
def mergeStep (b cur tgt : Option Str) : Option Str × Bool :=
  if cur = tgt then (cur, false)
  else if cur = b then (tgt, false)
  else if tgt = b then (cur, false)
  else (jsOrStr cur tgt, true)

/-! ## The normalizer: `PatchServiceImpl.normalizeContent`

Splits on `/\r\n|\r|\n/`, detects the dominant line ending (`\r\n`, then
`\r`, then `\n`), optionally strips trailing `[ \t]+` and replaces leading
`[ \t]+` with the configured indentation, joins with the detected ending
(when `preserveLineEndings`) or the configured default, and hashes the
result with base64 over its UTF-8 bytes. -/

/-- Shorthand for string literals in the embedding. -/
def str (s : String) : Str := s.toList

/-- `WhitespaceConfig` (src/types/index.ts): every field is optional, and
the two defaults are arbitrary strings. -/
structure WhitespaceConfig where
  preserveIndentation : Option Bool := none
  preserveLineEndings : Option Bool := none
  normalizeWhitespace : Option Bool := none
  trimTrailingWhitespace : Option Bool := none
  defaultIndentation : Option Str := none
  defaultLineEnding : Option Str := none
deriving DecidableEq, Repr

/-- JavaScript truthiness of an optional boolean (absent means falsy). -/
def tb (o : Option Bool) : Bool := o.getD false

/-- JavaScript `s || dflt` for an optional string: `undefined` and the
empty string are falsy. -/
def strOr (o : Option Str) (dflt : Str) : Str :=
  match o with
  | none => dflt
  | some s => if s = [] then dflt else s

/-- `DEFAULT_WHITESPACE_CONFIG` (src/config/defaults.ts). -/
def DEFAULT_WHITESPACE_CONFIG : WhitespaceConfig where
  preserveIndentation := some true
  preserveLineEndings := some true
  normalizeWhitespace := some true
  trimTrailingWhitespace := some true
  defaultIndentation := some (str "    ")
  defaultLineEnding := some (str "\n")

/-- Prepend a character to the first line of a split result. -/
def consHead (ch : Char) : List Str → List Str
  | [] => [[ch]]
  | l :: ls => (ch :: l) :: ls

/-- `content.split(/\r\n|\r|\n/)`. -/
def splitLinesCRLF : Str → List Str
  | [] => [[]]
  | '\r' :: '\n' :: rest => [] :: splitLinesCRLF rest
  | '\r' :: rest => [] :: splitLinesCRLF rest
  | '\n' :: rest => [] :: splitLinesCRLF rest
  | ch :: rest => consHead ch (splitLinesCRLF rest)

/-- `content.split('\n')` (used by `verifyLineChanges` and to report
`originalContent`/`newContent` in a `PatchResult`). -/
def splitNl : Str → List Str
  | [] => [[]]
  | '\n' :: rest => [] :: splitNl rest
  | ch :: rest => consHead ch (splitNl rest)

/-- `needle` occurs at the start of `hay`. -/
def listStartsWith : Str → Str → Bool
  | [], _ => true
  | _ :: _, [] => false
  | a :: as, b :: bs => a == b && listStartsWith as bs

/-- `hay.includes(needle)` of JavaScript strings. -/
def containsSub (needle : Str) : Str → Bool
  | [] => listStartsWith needle []
  | ch :: rest => listStartsWith needle (ch :: rest) || containsSub needle rest

/-- Line-ending detection: `content.includes('\r\n') ? '\r\n' :
content.includes('\r') ? '\r' : '\n'`. -/
def detectLineEnding (content : Str) : Str :=
  if containsSub (str "\r\n") content then str "\r\n"
  else if containsSub (str "\r") content then str "\r"
  else str "\n"

/-- Strip a trailing `[ \t]+` run (`line.replace(/[ \t]+$/, '')`). -/
def stripTrailingST (l : Str) : Str := (l.reverse.dropWhile isST).reverse

/-- Replace a leading `[ \t]+` run with `D`
(`line.replace(/^[ \t]+/, D)`; no match leaves the line unchanged). -/
def leadingReplaceST (l D : Str) : Str :=
  if l.takeWhile isST = [] then l else D ++ l.dropWhile isST

/-- Per-line processing of the normalizer: trailing-whitespace trim when
`trimTrailingWhitespace` is truthy, then indentation replacement when
`preserveIndentation` is falsy. -/
def processLine (config : WhitespaceConfig) (line : Str) : Str :=
  let p1 := if tb config.trimTrailingWhitespace then stripTrailingST line else line
  if tb config.preserveIndentation then p1
  else leadingReplaceST p1 (strOr config.defaultIndentation (str "    "))

/-- Split on every single `\r` or `\n` (the positions at which the
multiline anchor `^` of `/^[ \t]+/m` can match). -/
def splitRN : Str → List Str
  | [] => [[]]
  | '\r' :: rest => [] :: splitRN rest
  | '\n' :: rest => [] :: splitRN rest
  | ch :: rest => consHead ch (splitRN rest)

/-- `content.match(/^[ \t]+/m)`: the first line-start `[ \t]+` run. -/
def firstIndentMatch (content : Str) : Option Str :=
  go (splitRN content)
where
  go : List Str → Option Str
    | [] => none
    | seg :: rest =>
      if seg.takeWhile isST = [] then go rest else some (seg.takeWhile isST)

/-- Whitespace statistics of `NormalizedContent`. -/
structure NormStats where
  indentationSpaces : ℕ
  indentationTabs : ℕ
  trailingWhitespace : ℕ
  emptyLines : ℕ
  maxLineLength : ℕ
deriving DecidableEq, Repr

/-- The `NormalizedContent` record returned by `normalizeContent`. -/
structure NormalizedContent where
  normalized : Str
  lineEndings : Str
  indentation : Str
  hash : Str
  stats : NormStats
deriving DecidableEq, Repr

/-- UTF-8 bytes of one character. -/
def utf8Char (ch : Char) : List ℕ :=
  let n := ch.toNat
  if n < 0x80 then [n]
  else if n < 0x800 then [0xC0 + n / 64, 0x80 + n % 64]
  else if n < 0x10000 then
    [0xE0 + n / 4096, 0x80 + n / 64 % 64, 0x80 + n % 64]
  else
    [0xF0 + n / 262144, 0x80 + n / 4096 % 64, 0x80 + n / 64 % 64, 0x80 + n % 64]

/-- UTF-8 bytes of a string (`Buffer.from(normalized)`). -/
def utf8Bytes (s : Str) : List ℕ := (s.map utf8Char).flatten

/-- The base64 alphabet. -/
def base64Digit (n : ℕ) : Char :=
  (str "ABCDEFGHIJKLMNOPQRSTUVWXYZabcdefghijklmnopqrstuvwxyz0123456789+/").getD n '='

/-- Standard base64 with `=` padding (`buffer.toString('base64')`). -/
def base64 : List ℕ → Str
  | [] => []
  | [b1] => [base64Digit (b1 / 4), base64Digit (b1 % 4 * 16), '=', '=']
  | [b1, b2] =>
    [base64Digit (b1 / 4), base64Digit (b1 % 4 * 16 + b2 / 16),
      base64Digit (b2 % 16 * 4), '=']
  | b1 :: b2 :: b3 :: rest =>
    base64Digit (b1 / 4) :: base64Digit (b1 % 4 * 16 + b2 / 16) ::
      base64Digit (b2 % 16 * 4 + b3 / 64) :: base64Digit (b3 % 64) :: base64 rest

/-- Count of characters satisfying `p` in `l`. -/
def countP (p : Char → Bool) (l : Str) : ℕ := (l.filter p).length

/-- Whether a line ends in a space or tab (`/[ \t]+$/`). -/
def hasTrailingST (l : Str) : Bool :=
  match l.getLast? with
  | some ch => isST ch
  | none => false

/-- Whether a line is blank after `trim()` (all JavaScript whitespace). -/
def isBlankLine (l : Str) : Bool := l.all isJsSpace

/-- `PatchServiceImpl.normalizeContent`. -/
def normalizeContent (content : Str) (config : WhitespaceConfig) : NormalizedContent :=
  let lines := splitLinesCRLF content
  let lineEndings := detectLineEnding content
  let indentation :=
    strOr (match firstIndentMatch content with
           | some r => some r
           | none => config.defaultIndentation) (str "    ")
  let processedLines := lines.map (processLine config)
  let sep :=
    if tb config.preserveLineEndings then lineEndings
    else strOr config.defaultLineEnding (str "\n")
  let normalized := List.intercalate sep processedLines
  { normalized := normalized
    lineEndings := lineEndings
    indentation := indentation
    hash := base64 (utf8Bytes normalized)
    stats :=
      { indentationSpaces :=
          (lines.map (fun l => countP (· == ' ') (l.takeWhile isST))).sum
        indentationTabs :=
          (lines.map (fun l => countP (· == '\t') (l.takeWhile isST))).sum
        trailingWhitespace := (lines.filter hasTrailingST).length
        emptyLines := (lines.filter isBlankLine).length
        maxLineLength := (lines.map List.length).foldl max 0 } }

/-- A line produced by splitting contains no line-break characters. -/
def noCRLF (l : Str) : Prop := '\r' ∉ l ∧ '\n' ∉ l

/-- The separator the normalizer joins with. -/
def sepOf (config : WhitespaceConfig) (content : Str) : Str :=
  if tb config.preserveLineEndings then detectLineEnding content
  else strOr config.defaultLineEnding (str "\n")

/-! ## Patch operations: types, pattern synthesis, validators and verifiers -/

/-- `PATCH_TYPES` (src/config/defaults.ts): line, block, diff, complete. -/
inductive PatchType
  | line
  | block
  | diff
  | complete
deriving DecidableEq, Repr

/-- `MergeStrategy` (src/types/index.ts). -/
inductive MergeStrategy
  | overwrite
  | merge
  | smart
deriving DecidableEq, Repr

/-- `ConflictResolution` (src/types/index.ts). -/
inductive ConflictResolution
  | force
  | revert
  | manual
deriving DecidableEq, Repr

/-- `PatchOperation` (src/types/index.ts); optional fields are `Option`s,
`none` meaning the field is absent (`undefined`). -/
structure PatchOperation where
  type : PatchType
  filePath : String
  search : Option Str := none
  searchPattern : Option RegExpM := none
  replace : Option Str := none
  lineNumbers : Option (List Int) := none
  content : Option Str := none
  diff : Option Str := none
  createBackup : Option Bool := none
  whitespaceConfig : Option WhitespaceConfig := none
  mergeStrategy : Option MergeStrategy := none
  conflictResolution : Option ConflictResolution := none

/-- `PatchResult` (src/types/index.ts); absent optional fields are `none`. -/
structure PatchResult where
  success : Bool
  filePath : String
  type : PatchType
  changesApplied : ℕ
  backupPath : Option String := none
  originalContent : Option (List Str) := none
  newContent : Option (List Str) := none
  error : Option String := none
  conflicts : Option (List String) := none
deriving DecidableEq, Repr

/-- JavaScript truthiness of an optional string field (`undefined` and the
empty string are falsy). -/
def strTruthy (o : Option Str) : Bool :=
  match o with
  | none => false
  | some s => !s.isEmpty

/-- `private readonly CHUNK_SIZE = 100`. -/
def CHUNK_SIZE : ℕ := 100

/-- The characters escaped by `token.replace(/[.*+?^$\x7b\x7d()|[\]\\]/g, '\\$&')`. -/
def isRegexSpecial (ch : Char) : Bool :=
  ch == '.' || ch == '*' || ch == '+' || ch == '?' || ch == '^' || ch == '$' ||
  ch == Char.ofNat 123 || ch == Char.ofNat 125 || ch == '(' || ch == ')' ||
  ch == '|' || ch == '[' || ch == ']' || ch == '\\'

/-- `token.replace(/[.*+?^$\x7b\x7d()|[\]\\]/g, '\\$&')`: backslash-escape
every regex special character. -/
def escapeRegex (token : Str) : Str :=
  (token.map fun ch => if isRegexSpecial ch then ['\\', ch] else [ch]).flatten

/-- `escaped.replace(/\s+/g, '\\s+')`: replace every maximal whitespace run
by the four characters `\s+`. -/
def replaceWsRuns : Str → Str
  | [] => []
  | ch :: rest =>
    if isJsSpace ch then '\\' :: 's' :: '+' :: replaceWsRuns (rest.dropWhile isJsSpace)
    else ch :: replaceWsRuns rest
termination_by s => s.length
decreasing_by
  · exact Nat.lt_succ_of_le (List.Sublist.length_le (List.dropWhile_sublist _))
  · simp

/-- `PatchServiceImpl.createTokenPattern`: tokenize the pattern and make
each token flexible (`\s*` for pure-whitespace tokens when indentation is
not preserved, whitespace runs relaxed to `\s+` under
`normalizeWhitespace`), then join into one regex source. -/
def createTokenPattern (pattern : Str) (config : WhitespaceConfig) : RegExpM :=
  ⟨((tokenize pattern).map fun token =>
      let escaped := escapeRegex token
      if !tb config.preserveIndentation && (!token.isEmpty && token.all isJsSpace) then
        str "\\s*"
      else if tb config.normalizeWhitespace && token.any isJsSpace then
        replaceWsRuns escaped
      else escaped).flatten⟩

/-- `PatchServiceImpl.createBlockTokenPattern`: like `createTokenPattern`
but tokens containing a newline become `\r?\n` when line endings are not
preserved. -/
def createBlockTokenPattern (pattern : Str) (config : WhitespaceConfig) : RegExpM :=
  ⟨((tokenize pattern).map fun token =>
      let escaped := escapeRegex token
      if !tb config.preserveLineEndings && token.contains '\n' then
        str "\\r?\\n"
      else if !tb config.preserveIndentation && (!token.isEmpty && token.all isJsSpace) then
        str "\\s*"
      else if tb config.normalizeWhitespace && token.any isJsSpace then
        replaceWsRuns escaped
      else escaped).flatten⟩

/-- `PatchServiceImpl.splitIntoChunks`: successive slices of `size`
characters.  The source's `while` loop would not terminate for `size = 0`;
the method is only ever called with `CHUNK_SIZE = 100`, and the model
returns the whole content as one chunk in that degenerate case. -/
def splitIntoChunks : Str → ℕ → List Str
  | [], _ => []
  | ch :: rest, 0 => [ch :: rest]
  | ch :: rest, size + 1 =>
    (ch :: rest).take (size + 1) :: splitIntoChunks ((ch :: rest).drop (size + 1)) (size + 1)
termination_by content _ => content.length
decreasing_by simp; omega

/-! ### The synthesized block patterns as executable regexes

The only regexes whose matching semantics the service exercises are the
sources produced by `createBlockTokenPattern` (`chunk.replace(pattern,
replaceNormalized)` with flag `g`): alternating escaped literals, `\s*`,
`\s+` and `\r?\n`.  `PatElem`/`matchElems`/`regexReplaceAll` give those
pattern sources their JavaScript `RegExp` semantics (greedy quantifiers
with backtracking, global replace advancing one character past
zero-length matches). -/

/-- One element of a synthesized pattern source. -/
inductive PatElem
  | lit (ch : Char)
  | wsStar
  | wsPlus
  | crlfOpt
deriving DecidableEq, Repr

/-- Parse a synthesized pattern source into its elements (any backslash
not starting `\s*`, `\s+` or `\r?\n` escapes a literal). -/
def parsePatElems : Str → List PatElem
  | '\\' :: 's' :: '*' :: rest => .wsStar :: parsePatElems rest
  | '\\' :: 's' :: '+' :: rest => .wsPlus :: parsePatElems rest
  | '\\' :: 'r' :: '?' :: '\\' :: 'n' :: rest => .crlfOpt :: parsePatElems rest
  | '\\' :: ch :: rest => .lit ch :: parsePatElems rest
  | ch :: rest => .lit ch :: parsePatElems rest
  | [] => []

/-- Match a parsed pattern at the start of `s`, returning the unconsumed
suffix of the first (leftmost, quantifier-greedy) match.  Greedy
backtracking for `\s*`/`\s+` tries the longest whitespace run first. -/
def matchElems : List PatElem → Str → Option Str
  | [], s => some s
  | .lit ch :: es, s =>
    match s with
    | [] => none
    | d :: ds => if d = ch then matchElems es ds else none
  | .crlfOpt :: es, s =>
    (match s with
     | '\r' :: '\n' :: ds => matchElems es ds
     | _ => none).orElse fun _ =>
      match s with
      | '\n' :: ds => matchElems es ds
      | _ => none
  | .wsStar :: es, s =>
    let run := s.takeWhile isJsSpace
    let rest := s.dropWhile isJsSpace
    (List.range (run.length + 1)).reverse.findSome? fun k =>
      matchElems es (run.drop k ++ rest)
  | .wsPlus :: es, s =>
    match s with
    | [] => none
    | d :: ds =>
      if isJsSpace d then
        let run := ds.takeWhile isJsSpace
        let rest := ds.dropWhile isJsSpace
        (List.range (run.length + 1)).reverse.findSome? fun k =>
          matchElems es (run.drop k ++ rest)
      else none
termination_by es _ => es.length

/-- The number of characters a leftmost match of the pattern consumes at
the start of `s` (the JavaScript match's end index), if it matches. -/
def matchLenOf (elems : List PatElem) (s : Str) : Option ℕ :=
  (matchElems elems s).map fun rem => s.length - rem.length

/-- `chunk.replace(pattern, repl)` with the `g` flag: replace every
non-overlapping match, advancing one character after a zero-length
match (JavaScript `lastIndex` semantics). -/
def regexReplaceAll (elems : List PatElem) (repl : Str) (s : Str) : Str :=
  match hm : matchLenOf elems s with
  | some n =>
    if hn : n = 0 then
      match s with
      | [] => repl
      | ch :: cs => repl ++ ch :: regexReplaceAll elems repl cs
    else repl ++ regexReplaceAll elems repl (s.drop n)
  | none =>
    match s with
    | [] => []
    | ch :: cs => ch :: regexReplaceAll elems repl cs
termination_by s.length
decreasing_by
  · simp
  · simp only [matchLenOf, Option.map_eq_some'] at hm
    obtain ⟨rem, -, h⟩ := hm
    simp [List.length_drop]
    omega
  · simp

/-- Whether a line contains the protected markers `TODO` or `IMPORTANT`. -/
def isProtectedLine (l : Str) : Bool :=
  containsSub (str "TODO") l || containsSub (str "IMPORTANT") l

/-- `PatchServiceImpl.isValidContent`: non-empty and no NUL character. -/
def isValidContent (content : Str) : Bool :=
  decide (0 < content.length) && !content.contains (Char.ofNat 0)

/-- `PatchServiceImpl.hasValidStructure`: every `\n`-split line is at most
10000 characters long. -/
def hasValidStructure (content : Str) : Bool :=
  (splitNl content).all fun l => decide (l.length ≤ 10000)

/-- `PatchServiceImpl.hasValidBlockStructure`: equally many opening and
closing curly braces. -/
def hasValidBlockStructure (content : Str) : Bool :=
  decide ((content.filter (fun ch => ch == Char.ofNat 123)).length =
    (content.filter (fun ch => ch == Char.ofNat 125)).length)

/-- `PatchServiceImpl.validateLineChange`: lines containing `TODO` or
`IMPORTANT` are protected; otherwise the replacement may at most double
the length. -/
def validateLineChange (original modified : Str) : Bool :=
  if containsSub (str "TODO") original || containsSub (str "IMPORTANT") original then false
  else decide (modified.length ≤ original.length * 2)

/-- `PatchServiceImpl.validateLineDeletion`: only lines without
`IMPORTANT` and `TODO` may be deleted. -/
def validateLineDeletion (line : Str) : Bool :=
  !containsSub (str "IMPORTANT") line && !containsSub (str "TODO") line

/-- JavaScript `calculateSimilarity(...) >= threshold` where the score may
be `NaN` (modelled `none`; every `NaN` comparison is false). -/
def simAtLeast (sim : Option ℚ) (threshold : ℚ) : Bool :=
  match sim with
  | none => false
  | some v => decide (threshold ≤ v)

/-- `PatchServiceImpl.validateBlockChange`. -/
def validateBlockChange (original modified : Str) : Bool :=
  hasValidBlockStructure modified &&
    decide ((original.length : ℚ) * 0.5 ≤ (modified.length : ℚ)) &&
    decide ((modified.length : ℚ) ≤ (original.length : ℚ) * 2)

/-- `PatchServiceImpl.validateDiffChange`. -/
def validateDiffChange (original modified : Str) : Bool :=
  isValidContent modified && hasValidStructure modified &&
    simAtLeast (calculateSimilarity (tokenize original) (tokenize modified)) 0.3

/-- `PatchServiceImpl.verifyCompleteReplacement`. -/
def verifyCompleteReplacement (original modified : Str) : Bool :=
  hasValidStructure modified &&
    decide ((original.length : ℚ) * 0.5 ≤ (modified.length : ℚ))

/-- `PatchServiceImpl.verifyLineChanges`: the absolute difference of the
`\n`-split line counts may not exceed the number of blank lines of the
original. -/
def verifyLineChanges (original modified : Str) : Bool :=
  decide (((((splitNl original).length : ℤ) - ((splitNl modified).length : ℤ)).natAbs : ℕ) ≤
    ((splitNl original).filter isBlankLine).length)

/-- `PatchServiceImpl.verifyBlockChanges`. -/
def verifyBlockChanges (original modified : Str) : Bool :=
  hasValidBlockStructure modified &&
    simAtLeast (calculateSimilarity (tokenize original) (tokenize modified)) 0.3

/-- `PatchServiceImpl.verifyDiffChanges`. -/
def verifyDiffChanges (original modified : Str) : Bool :=
  isValidContent modified && hasValidStructure modified &&
    simAtLeast (calculateSimilarity (tokenize original) (tokenize modified)) 0.5

/-- `PatchServiceImpl.verifyChanges`: generic content validation followed
by the per-type verifier. -/
def verifyChanges (original modified : Str) (op : PatchOperation) : Bool :=
  if !isValidContent modified then false
  else
    match op.type with
    | .complete => verifyCompleteReplacement original modified
    | .line => verifyLineChanges original modified
    | .block => verifyBlockChanges original modified
    | .diff => verifyDiffChanges original modified

/-! ## Strategy handlers -/

/-- `PatchServiceImpl.handleCompleteReplacement`: normalize the
replacement; without a strategy (or with `overwrite`) return it as is,
otherwise three-way merge against the token-LCS common ancestor. -/
def handleCompleteReplacement (original replacement : Str)
    (config : WhitespaceConfig) (strategy : Option MergeStrategy) :
    Str × List String :=
  let normalized := (normalizeContent replacement config).normalized
  if strategy = none ∨ strategy = some .overwrite then (normalized, [])
  else
    let base := findCommonAncestor original normalized
    performThreeWayMerge base original normalized

/-- The `for (const lineNum of operation.lineNumbers)` loop of
`PatchServiceImpl.handleLineOperation`: validate and apply a replacement
or deletion at each (1-based, in-range) line number. -/
def lineNumsLoop (replace : Option Str) :
    List Int → List Str → ℕ → List String → List Str × ℕ × List String
  | [], lines, changes, conflicts => (lines, changes, conflicts)
  | n :: ns, lines, changes, conflicts =>
    if 0 < n ∧ n ≤ (lines.length : ℤ) then
      let idx := (n - 1).toNat
      let originalLine := lines.getD idx []
      match replace with
      | some r =>
        if validateLineChange originalLine r then
          lineNumsLoop replace ns (lines.set idx r) (changes + 1) conflicts
        else
          lineNumsLoop replace ns lines changes
            (conflicts ++ ["Line " ++ toString n ++ ": Invalid change detected"])
      | none =>
        if validateLineDeletion originalLine then
          lineNumsLoop replace ns (lines.eraseIdx idx) (changes + 1) conflicts
        else
          lineNumsLoop replace ns lines changes
            (conflicts ++ ["Line " ++ toString n ++ ": Cannot delete protected line"])
    else lineNumsLoop replace ns lines changes conflicts

/-- The `for (let i = 0; i < lines.length; i++)` loop of
`PatchServiceImpl.handleLineOperation`: normalize each line, test it
against the token pattern, and validate/apply the replacement or deletion
(the index is not advanced after a deletion, mirroring the `i--`). -/
def patternLoop (config : WhitespaceConfig) (pattern : RegExpM)
    (replace : Option Str) (lines : List Str) (i changes : ℕ)
    (conflicts : List String) : List Str × ℕ × List String :=
  if h : i < lines.length then
    let line := lines.getD i []
    let normalizedLine := (normalizeContent line config).normalized
    if matchesWithTokens normalizedLine pattern then
      match replace with
      | some r =>
        if validateLineChange line r then
          patternLoop config pattern replace (lines.set i r) (i + 1) (changes + 1) conflicts
        else
          patternLoop config pattern replace lines (i + 1) changes
            (conflicts ++ ["Line " ++ toString (i + 1) ++ ": Invalid change detected"])
      | none =>
        if validateLineDeletion line then
          patternLoop config pattern replace (lines.eraseIdx i) i (changes + 1) conflicts
        else
          patternLoop config pattern replace lines (i + 1) changes
            (conflicts ++ ["Line " ++ toString (i + 1) ++ ": Cannot delete protected line"])
    else patternLoop config pattern replace lines (i + 1) changes conflicts
  else (lines, changes, conflicts)
termination_by lines.length - i
decreasing_by
  all_goals simp [List.length_set, List.length_eraseIdx, h]
  all_goals omega

/-- `PatchServiceImpl.handleLineOperation`: split on `\n`, run the
line-number loop or the pattern loop, and re-join with `\n`. -/
def handleLineOperation (content : Str) (op : PatchOperation)
    (config : WhitespaceConfig) : Except String (Str × ℕ × List String) :=
  let lines := splitNl content
  if op.lineNumbers.isSome then
    let (lines2, changes, conflicts) :=
      lineNumsLoop op.replace (op.lineNumbers.getD []) lines 0 []
    .ok (List.intercalate (str "\n") lines2, changes, conflicts)
  else if strTruthy op.search || op.searchPattern.isSome then
    match op.searchPattern with
    | some pattern =>
      let (lines2, changes, conflicts) := patternLoop config pattern op.replace lines 0 0 []
      .ok (List.intercalate (str "\n") lines2, changes, conflicts)
    | none =>
      if strTruthy op.search then
        let pattern := createTokenPattern (op.search.getD []) config
        let (lines2, changes, conflicts) := patternLoop config pattern op.replace lines 0 0 []
        .ok (List.intercalate (str "\n") lines2, changes, conflicts)
      else .error "Either search or searchPattern must be provided"
  else .ok (List.intercalate (str "\n") lines, 0, [])

/-- `PatchServiceImpl.handleBlockOperation`: normalize search and replace,
synthesize the block pattern, and fold over the 100-character chunks,
replacing every chunk the fuzzy matcher accepts (after validation). -/
def handleBlockOperation (content : Str) (op : PatchOperation)
    (config : WhitespaceConfig) : Except String (Str × ℕ × List String) :=
  if !strTruthy op.search || !strTruthy op.replace then
    .error "Search and replace are required for block replacement"
  else
    let searchNormalized := (normalizeContent (op.search.getD []) config).normalized
    let replaceNormalized := (normalizeContent (op.replace.getD []) config).normalized
    let pattern := createBlockTokenPattern searchNormalized config
    let chunks := splitIntoChunks content CHUNK_SIZE
    .ok (chunks.foldl (fun acc chunk =>
      let (newContent, changes, conflicts) := acc
      if matchesWithTokens chunk pattern then
        if validateBlockChange chunk replaceNormalized then
          (newContent ++ regexReplaceAll (parsePatElems pattern.source) replaceNormalized chunk,
            changes + 1, conflicts)
        else (newContent ++ chunk, changes, conflicts ++ ["Block change validation failed"])
      else (newContent ++ chunk, changes, conflicts)) ([], 0, []))

/-! ### The external `diff` library (spec-modelled)

`handleDiffOperation` delegates parsing and application of unified diffs
to the external npm package `diff` (`parsePatch` / `applyPatch`).  The
library is not part of this repository; `DiffHunk`, `parsePatchModel` and
`applyPatchModel` are an executable model of it: text containing a `@@`
hunk header parses into one patch whose hunk carries its removed and
added lines, anything else is a parse error, and applying a hunk replaces
the first occurrence of its old lines (failing — the library's `false` —
when they do not occur). -/

/-- Model of one hunk of a unified diff: the lines expected to be present
(context and removals) and the lines after application (context and
additions). -/
structure DiffHunk where
  oldLines : List Str
  newLines : List Str
deriving DecidableEq, Repr

/-- Model of one parsed patch of the `diff` library. -/
structure DiffPatch where
  hunks : List DiffHunk
deriving DecidableEq, Repr

/-- The context/removal lines of a unified diff body. -/
def hunkOldLines (lines : List Str) : List Str :=
  lines.filterMap fun l =>
    match l with
    | '-' :: rest => some rest
    | ' ' :: rest => some rest
    | _ => none

/-- The context/addition lines of a unified diff body. -/
def hunkNewLines (lines : List Str) : List Str :=
  lines.filterMap fun l =>
    match l with
    | '+' :: rest => some rest
    | ' ' :: rest => some rest
    | _ => none

/-- Model of `diff.parsePatch`. -/
def parsePatchModel (d : Str) : Except String (List DiffPatch) :=
  let lines := splitNl d
  if lines.any (fun l => listStartsWith (str "@@") l) then
    .ok [⟨[⟨hunkOldLines lines, hunkNewLines lines⟩]⟩]
  else .error "Unknown line in diff"

/-- Replace the first occurrence of the line block `oldL` by `newL`. -/
def replaceSegment (oldL newL : List Str) : List Str → Option (List Str)
  | [] => if oldL = [] then some newL else none
  | l :: ls =>
    if oldL.isPrefixOf (l :: ls) then some (newL ++ (l :: ls).drop oldL.length)
    else (replaceSegment oldL newL ls).map (l :: ·)

/-- Model of `diff.applyPatch`: apply each hunk in turn; `none` models the
library returning `false`. -/
def applyPatchModel (content : Str) (p : DiffPatch) : Option Str :=
  p.hunks.foldl (fun acc h =>
    match acc with
    | none => none
    | some c =>
      match replaceSegment h.oldLines h.newLines (splitNl c) with
      | some ls => some (List.intercalate (str "\n") ls)
      | none => none) (some content)

/-- Model of `JSON.stringify(patch)` in the conflict message. -/
def stringifyPatch (p : DiffPatch) : String :=
  "\x7b hunks: " ++ toString p.hunks.length ++ " \x7d"

/-- `PatchServiceImpl.handleDiffOperation`: parse the diff (wrapping a
parse failure into `Failed to apply diff patch: …`), then apply each
patch, recording a conflict when application fails or validation
rejects the result. -/
def handleDiffOperation (content : Str) (op : PatchOperation) :
    Except String (Str × ℕ × List String) :=
  match parsePatchModel (op.diff.getD []) with
  | .error e => .error ("Failed to apply diff patch: " ++ e)
  | .ok patches =>
    .ok (patches.foldl (fun acc p =>
      let (newContent, changes, conflicts) := acc
      match applyPatchModel newContent p with
      | none => (newContent, changes, conflicts ++ ["Failed to apply patch: " ++ stringifyPatch p])
      | some res =>
        if validateDiffChange newContent res then (res, changes + 1, conflicts)
        else (newContent, changes, conflicts ++ ["Diff change validation failed"]))
      (content, 0, []))

/-- The `switch (operation.type)` of `PatchServiceImpl.applyPatch`,
including the required-field guards of the `complete`, `block` and `diff`
arms (the `default: throw` arm is unreachable for a well-typed
operation). -/
def dispatchStrategy (op : PatchOperation) (content : Str)
    (config : WhitespaceConfig) : Except String (Str × ℕ × List String) :=
  match op.type with
  | .complete =>
    if !strTruthy op.content then .error "Content is required for complete replacement"
    else
      let (normalized, completeConflicts) :=
        handleCompleteReplacement content (op.content.getD []) config op.mergeStrategy
      .ok (normalized, 1, completeConflicts)
  | .line => handleLineOperation content op config
  | .block =>
    if !strTruthy op.search || !strTruthy op.replace then
      .error "Search and replace are required for block replacement"
    else handleBlockOperation content op config
  | .diff =>
    if !strTruthy op.diff then .error "Diff content is required for diff patching"
    else handleDiffOperation content op

/-! ## The file system, `FileServiceImpl`, and the atomic-operation
pipeline of `applyPatch`

The file system is modelled as an association list from paths to
contents.  Every mutating `FileServiceImpl` call takes and returns the
file system, paired with `Except`: an `.error` is a thrown
`FileOperationError` whose message the model renders with
`Failed to … file: ` followed by a model of the Node error text. -/

/-- The file system: paths with their contents. -/
abbrev FS := List (String × Str)

/-- Content of the file at `path`, if it exists. -/
def fsLookup (fs : FS) (path : String) : Option Str :=
  (fs.find? fun e => e.1 == path).map (·.2)

/-- Remove the file at `path`. -/
def fsDelete (fs : FS) (path : String) : FS :=
  fs.filter fun e => !(e.1 == path)

/-- Create or overwrite the file at `path`. -/
def fsWrite (fs : FS) (path : String) (content : Str) : FS :=
  (path, content) :: fsDelete fs path

/-- Model of the Node `ENOENT` error message for a missing file. -/
def nodeNoEnt (path : String) : String :=
  "ENOENT: no such file or directory, " ++ path

/-- `FileServiceImpl.readFile` (src/unnamed/part_003): the content, or a
thrown `Failed to read file: …`. -/
def readFileE (fs : FS) (path : String) : Except String Str :=
  match fsLookup fs path with
  | some c => .ok c
  | none => .error ("Failed to read file: " ++ nodeNoEnt path)

/-- `FileServiceImpl.writeFile`: creates or overwrites; the model never
fails. -/
def writeFileS (fs : FS) (path : String) (content : Str) : FS :=
  fsWrite fs path content

/-- `FileServiceImpl.copyFile` (with `overwrite = true` as the patch
service calls it): a thrown `Failed to copy file: …` when the source is
missing. -/
def copyFileS (fs : FS) (src dst : String) : Except String Unit × FS :=
  match fsLookup fs src with
  | some c => (.ok (), fsWrite fs dst c)
  | none => (.error ("Failed to copy file: " ++ nodeNoEnt src), fs)

/-- `FileServiceImpl.deleteFile`: a thrown `Failed to delete file: …`
when the file is missing. -/
def deleteFileS (fs : FS) (path : String) : Except String Unit × FS :=
  if (fsLookup fs path).isSome then (.ok (), fsDelete fs path)
  else (.error ("Failed to delete file: " ++ nodeNoEnt path), fs)

/-- `PatchServiceImpl.createBackup`: copy the file to `<path>.bak`,
wrapping a failure into `Failed to create backup: …`. -/
def createBackupS (fs : FS) (filePath : String) : Except String String × FS :=
  let backupPath := filePath ++ ".bak"
  match copyFileS fs filePath backupPath with
  | (.ok _, fs2) => (.ok backupPath, fs2)
  | (.error e, fs2) => (.error ("Failed to create backup: " ++ e), fs2)

/-- The context of an atomic patch operation. -/
structure AtomicContext where
  backupPath : Option String
  tempPath : Option String
deriving DecidableEq, Repr

/-- `PatchServiceImpl.createAtomicContext`: create a backup (and remember
both paths) only when `operation.createBackup` is truthy. -/
def createAtomicContextS (op : PatchOperation) (fs : FS) :
    Except String AtomicContext × FS :=
  if tb op.createBackup then
    match createBackupS fs op.filePath with
    | (.ok bp, fs2) => (.ok ⟨some bp, some op.filePath⟩, fs2)
    | (.error e, fs2) => (.error e, fs2)
  else (.ok ⟨none, none⟩, fs)

/-- `PatchServiceImpl.restoreFromBackup`: copy the backup over the file
and delete the backup, wrapping any failure into
`Failed to restore from backup: …`. -/
def restoreFromBackupS (fs : FS) (filePath backupPath : String) :
    Except String Unit × FS :=
  match copyFileS fs backupPath filePath with
  | (.ok _, fs1) =>
    match deleteFileS fs1 backupPath with
    | (.ok _, fs2) => (.ok (), fs2)
    | (.error e, fs2) => (.error ("Failed to restore from backup: " ++ e), fs2)
  | (.error e, fs1) => (.error ("Failed to restore from backup: " ++ e), fs1)

/-- `PatchServiceImpl.rollbackAtomicOperation`: restore from the backup
when both context paths are set. -/
def rollbackS (ctx : AtomicContext) (fs : FS) : Except String Unit × FS :=
  match ctx.backupPath, ctx.tempPath with
  | some bp, some tp => restoreFromBackupS fs tp bp
  | _, _ => (.ok (), fs)

/-- `PatchServiceImpl.commitAtomicOperation`: delete the backup file when
one was made. -/
def commitS (ctx : AtomicContext) (fs : FS) : Except String Unit × FS :=
  match ctx.backupPath with
  | some bp => deleteFileS fs bp
  | none => (.ok (), fs)

/-- `PatchServiceImpl.handleConflicts`: `force` commits, `revert` rolls
back, anything else rolls back and throws `Unresolved conflicts: …`. -/
def handleConflictsS (ctx : AtomicContext) (conflicts : List String)
    (resolution : Option ConflictResolution) (fs : FS) :
    Except String Unit × FS :=
  match resolution with
  | some .force => commitS ctx fs
  | some .revert => rollbackS ctx fs
  | _ =>
    match rollbackS ctx fs with
    | (.ok _, fs2) =>
      (.error ("Unresolved conflicts: " ++ String.intercalate ", " conflicts), fs2)
    | (.error e, fs2) => (.error e, fs2)

/-- The `PatchResult` returned from the outer `catch` of `applyPatch`. -/
def failResult (op : PatchOperation) (msg : String) : PatchResult :=
  { success := false
    filePath := op.filePath
    type := op.type
    changesApplied := 0
    error := some msg }

/-- The `PatchResult` returned at the end of the inner `try` of
`applyPatch`. -/
def successResult (op : PatchOperation) (ctx : AtomicContext)
    (content newContent : Str) (changesApplied : ℕ)
    (conflicts : List String) : PatchResult :=
  { success := true
    filePath := op.filePath
    type := op.type
    changesApplied := changesApplied
    backupPath := ctx.backupPath
    originalContent := some (splitNl content)
    newContent := some (splitNl newContent)
    conflicts := if 0 < conflicts.length then some conflicts else none }

/-- The write/conflict phase of `applyPatch`: write and commit when
changes were applied without conflicts, route non-empty conflicts through
`handleConflicts`, and otherwise do nothing. -/
def writePhase (op : PatchOperation) (ctx : AtomicContext)
    (newContent : Str) (changesApplied : ℕ) (conflicts : List String)
    (fs : FS) : Except String Unit × FS :=
  if 0 < changesApplied ∧ conflicts = [] then
    commitS ctx (writeFileS fs op.filePath newContent)
  else if conflicts ≠ [] then
    handleConflictsS ctx conflicts op.conflictResolution fs
  else (.ok (), fs)

/-- The inner `try` of `applyPatch`: read and normalize the file, run the
per-type strategy, verify, then write/commit or handle conflicts.  An
`.error` is an exception reaching the inner `catch`. -/
def applyPatchInner (op : PatchOperation) (ctx : AtomicContext) (fs : FS) :
    Except String PatchResult × FS :=
  match readFileE fs op.filePath with
  | .error e => (.error e, fs)
  | .ok fileContent =>
    let effectiveConfig := op.whitespaceConfig.getD DEFAULT_WHITESPACE_CONFIG
    let content := (normalizeContent fileContent effectiveConfig).normalized
    match dispatchStrategy op content effectiveConfig with
    | .error e => (.error e, fs)
    | .ok (newContent, changesApplied, conflicts) =>
      if verifyChanges content newContent op then
        match writePhase op ctx newContent changesApplied conflicts fs with
        | (.ok _, fs2) =>
          (.ok (successResult op ctx content newContent changesApplied conflicts), fs2)
        | (.error e, fs2) => (.error e, fs2)
      else (.error "Change verification failed", fs)

/-- `PatchServiceImpl.applyPatch`: the whole pipeline including the inner
`catch` (roll back, rethrow) and the outer `catch` (turn the error into a
`success = false` result). -/
def applyPatchCore (op : PatchOperation) (fs : FS) : PatchResult × FS :=
  match createAtomicContextS op fs with
  | (.error e, fs0) => (failResult op e, fs0)
  | (.ok ctx, fs0) =>
    match applyPatchInner op ctx fs0 with
    | (.ok r, fs1) => (r, fs1)
    | (.error e, fs1) =>
      match rollbackS ctx fs1 with
      | (.ok _, fs2) => (failResult op e, fs2)
      | (.error e2, fs2) => (failResult op e2, fs2)

deriving instance DecidableEq for Except

/-- The operation of the C7 scenario:
`{type: "line", search: "bar", replace: "baz"}` on file `f`. -/
def op7 : PatchOperation :=
  { type := .line, filePath := "f", search := some (str "bar"),
    replace := some (str "baz") }

/-- The file system of the C7 scenario: `f` contains `"foo\nbar\n"`. -/
def fs7 : FS := [("f", str "foo\nbar\n")]

/-! ## C4/C10 scenarios -/

/-- Scenario for C4: delete line 1 (no `replace` field). -/
def op4 : PatchOperation :=
  { type := .line, filePath := "f", lineNumbers := some [1] }

/-- The file of the C4 scenario: one protected line. -/
def fs4 : FS := [("f", str "x = 1;  // TODO fix\n")]

/-- Scenario for C10: delete line 1 of a two-line file with no blank
lines. -/
def op10 : PatchOperation :=
  { type := .line, filePath := "f", lineNumbers := some [1] }

/-- The file of the C10 scenario. -/
def fs10 : FS := [("f", str "foo\nbar")]

/-- Scenario for C1: delete lines 2 and 1 of `"foo\nbar TODO\nbaz\n"`;
line 2 is protected, line 1 is deleted, so the strategy reports one
change and one conflict.  `conflictResolution := revert`. -/
def opRev : PatchOperation :=
  { type := .line, filePath := "f", lineNumbers := some [2, 1],
    conflictResolution := some .revert }

/-- The same operation with `conflictResolution := force`. -/
def opForce : PatchOperation :=
  { type := .line, filePath := "f", lineNumbers := some [2, 1],
    conflictResolution := some .force }

/-- The file system of the C1 scenario. -/
def fsC1 : FS := [("f", str "foo\nbar TODO\nbaz\n")]

/-- The operation of the C3 witness: `complete` with no `content`. -/
def opC3 : PatchOperation := { type := .complete, filePath := "f" }

/-- The file system of the C3 witness. -/
def fsC3 : FS := [("f", str "x")]

/-- The operation of the C2 witness (its target file does not exist, so
the patch fails). -/
def opC2 : PatchOperation := { type := .line, filePath := "g" }

/-! ## Theorems -/

lemma length_dropWhile_le (p : Char → Bool) (l : Str) :
    (l.dropWhile p).length ≤ l.length := by
  induction l with
  | nil => simp [List.dropWhile]
  | cons x xs ih =>
    by_cases hx : p x
    · simp only [List.dropWhile_cons_of_pos hx, List.length_cons]; omega
    · simp [List.dropWhile_cons_of_neg hx]

lemma dropWhile_head_not {p : Char → Bool} {l : Str} :
    ∀ {d : Char} {ds : Str}, l.dropWhile p = d :: ds → p d = false := by
  induction l with
  | nil => intro d ds h; simp [List.dropWhile] at h
  | cons x xs ih =>
    intro d ds h
    by_cases hx : p x
    · rw [List.dropWhile_cons_of_pos hx] at h
      exact ih h
    · rw [List.dropWhile_cons_of_neg hx] at h
      cases h
      simpa using hx

lemma tokenize_first_head :
    ∀ (c : Char) (rest : Str), ∃ t ts, tokenize (c :: rest) = (c :: t) :: ts := by
  intro c rest
  rw [tokenize]
  exact ⟨_, _, rfl⟩

/-- **C9.** For every input string the tokenizer produces tokens that
(1) concatenate back to the input exactly, in left-to-right order,
(2) are each nonempty and drawn from a single character class, and
(3) are maximal runs: adjacent tokens always have different classes. -/
theorem tokenize_spec (s : Str) :
    (tokenize s).flatten = s ∧
    (∀ t ∈ tokenize s, t ≠ [] ∧ ∀ c ∈ t, classOf c = tokHeadClass t) ∧
    List.Chain' (fun a b => tokHeadClass a ≠ tokHeadClass b) (tokenize s) := by
  match s with
  | [] => exact ⟨by simp [tokenize], by simp [tokenize], by simp [tokenize]⟩
  | c :: rest =>
    have hlen := length_dropWhile_le (fun d => classOf d == classOf c) rest
    have ih := tokenize_spec (rest.dropWhile (fun d => classOf d == classOf c))
    obtain ⟨ihj, ihm, ihc⟩ := ih
    rw [tokenize]
    refine ⟨?_, ?_, ?_⟩
    · simp only [List.flatten_cons, ihj]
      rw [List.cons_append]
      exact congrArg (c :: ·) (List.takeWhile_append_dropWhile _ _)
    · intro t ht
      rcases List.mem_cons.mp ht with h | h
      · subst h
        refine ⟨by simp, ?_⟩
        intro d hd
        rcases List.mem_cons.mp hd with h | h
        · subst h; rfl
        · have := List.mem_takeWhile_imp h
          simp only [beq_iff_eq] at this
          simpa [tokHeadClass] using this
      · exact ihm t h
    · rcases hdrop : rest.dropWhile (fun d => classOf d == classOf c) with _ | ⟨d, ds⟩
      · simp [hdrop, tokenize]
      · rw [hdrop] at ihc
        refine List.chain'_cons'.mpr ⟨?_, ihc⟩
        intro y hy
        obtain ⟨t', ts', ht'⟩ := tokenize_first_head d ds
        rw [ht'] at hy
        simp only [List.head?_cons, Option.mem_def, Option.some.injEq] at hy
        subst hy
        have hnot := dropWhile_head_not hdrop
        have hne : classOf d ≠ classOf c := by simpa using hnot
        simp only [tokHeadClass, List.headD_cons]
        intro hEq
        exact hne hEq.symm
termination_by s.length
decreasing_by
  simp only [List.length_cons]
  omega

/-- Witness for `tokenize_spec` at the concrete input `"a b"`. -/
theorem tokenize_spec_witness :
    (tokenize (str "a b")).flatten = str "a b" ∧ str "a" ≠ [] := by
  refine ⟨(tokenize_spec (str "a b")).1,
    ((tokenize_spec (str "a b")).2.1 (str "a") ?_).1⟩
  have h : tokenize ['a', ' ', 'b'] = [['a'], [' '], ['b']] := by
    simp [tokenize, classOf, isJsSpace, isWordChar]
  show ['a'] ∈ tokenize ['a', ' ', 'b']
  rw [h]
  simp

section EditDistance

variable {α : Type} [DecidableEq α]

@[simp] lemma levenshtein_nil_left (ys : List α) :
    levenshtein ([] : List α) ys = ys.length := by
  rw [levenshtein]

@[simp] lemma levenshtein_nil_right (xs : List α) :
    levenshtein xs ([] : List α) = xs.length := by
  cases xs <;> rw [levenshtein]

lemma levenshtein_cons_cons (x y : α) (xs ys : List α) :
    levenshtein (x :: xs) (y :: ys) =
      min (levenshtein xs ys + subCost x y)
        (min (levenshtein (x :: xs) ys + 1) (levenshtein xs (y :: ys) + 1)) := by
  rw [levenshtein]

lemma subCost_le_one (x y : α) : subCost x y ≤ 1 := by
  unfold subCost; split <;> omega

/-- The edit distance is bounded by the longer length. -/
theorem levenshtein_le_max : ∀ xs ys : List α,
    levenshtein xs ys ≤ max xs.length ys.length := by
  intro xs ys
  match xs, ys with
  | [], ys => simp
  | x :: xs, [] => simp
  | x :: xs, y :: ys =>
    have h1 := levenshtein_le_max xs ys
    have h2 := subCost_le_one x y
    rw [levenshtein_cons_cons]
    simp only [List.length_cons] at *
    omega
termination_by xs ys => xs.length + ys.length
decreasing_by simp only [List.length_cons]; omega

lemma lev_cons_left_le (x : α) (xs ys : List α) :
    levenshtein (x :: xs) ys ≤ levenshtein xs ys + 1 := by
  cases ys with
  | nil => simp
  | cons y ys => rw [levenshtein_cons_cons]; omega

lemma lev_cons_right_le (y : α) (xs ys : List α) :
    levenshtein xs (y :: ys) ≤ levenshtein xs ys + 1 := by
  cases xs with
  | nil => simp
  | cons x xs => rw [levenshtein_cons_cons]; omega

theorem lev_le_cons_left : ∀ (xs ys : List α) (x : α),
    levenshtein xs ys ≤ levenshtein (x :: xs) ys + 1 := by
  intro xs ys x
  match xs, ys with
  | xs, [] => simp only [levenshtein_nil_right, List.length_cons]; omega
  | xs, y :: ys =>
    have h1 := lev_cons_right_le y xs ys
    have h2 := lev_le_cons_left xs ys x
    rw [levenshtein_cons_cons x y xs ys]
    omega
termination_by xs ys => xs.length + ys.length
decreasing_by simp only [List.length_cons]; omega

theorem lev_le_cons_right : ∀ (xs ys : List α) (y : α),
    levenshtein xs ys ≤ levenshtein xs (y :: ys) + 1 := by
  intro xs ys y
  match xs, ys with
  | [], ys => simp only [levenshtein_nil_left, List.length_cons]; omega
  | x :: xs, ys =>
    have h1 := lev_cons_left_le x xs ys
    have h2 := lev_le_cons_right xs ys y
    rw [levenshtein_cons_cons x y xs ys]
    omega
termination_by xs ys => xs.length + ys.length
decreasing_by simp only [List.length_cons]; omega

/-- Closed form for a single-element list on the left. -/
theorem lev_single_left (x : α) : ∀ zs : List α,
    levenshtein [x] zs = if x ∈ zs then zs.length - 1 else max 1 zs.length := by
  intro zs
  induction zs with
  | nil => simp
  | cons z zs ih =>
    rw [levenshtein_cons_cons x z [] zs]
    simp only [levenshtein_nil_left, levenshtein_nil_right, List.length_cons,
      List.mem_cons, List.length_nil]
    unfold subCost
    by_cases hmem : x ∈ zs
    · have hlen : 1 ≤ zs.length := List.length_pos.mpr (List.ne_nil_of_mem hmem)
      rw [if_pos hmem] at ih
      by_cases hxz : x = z
      · rw [if_pos hxz, if_pos (Or.inl hxz)]; omega
      · rw [if_neg hxz, if_pos (Or.inr hmem)]; omega
    · rw [if_neg hmem] at ih
      by_cases hxz : x = z
      · rw [if_pos hxz, if_pos (Or.inl hxz)]; omega
      · rw [if_neg hxz, if_neg (by tauto)]; omega

/-- Closed form for a single-element list on the right. -/
theorem lev_single_right (y : α) : ∀ zs : List α,
    levenshtein zs [y] = if y ∈ zs then zs.length - 1 else max 1 zs.length := by
  intro zs
  induction zs with
  | nil => simp
  | cons z zs ih =>
    rw [levenshtein_cons_cons z y zs []]
    simp only [levenshtein_nil_left, levenshtein_nil_right, List.length_cons,
      List.mem_cons, List.length_nil]
    unfold subCost
    by_cases hmem : y ∈ zs
    · have hlen : 1 ≤ zs.length := List.length_pos.mpr (List.ne_nil_of_mem hmem)
      rw [if_pos hmem] at ih
      by_cases hzy : z = y
      · rw [if_pos hzy, if_pos (Or.inl hzy.symm)]; omega
      · rw [if_neg hzy, if_pos (Or.inr hmem)]; omega
    · rw [if_neg hmem] at ih
      by_cases hzy : z = y
      · rw [if_pos hzy, if_pos (Or.inl hzy.symm)]; omega
      · rw [if_neg hzy, if_neg (by rintro (h | h); exacts [hzy h.symm, hmem h])]
        omega

/-- Transposing a 3 × 3 grid of values does not change its minimum;
stated in the shape needed by `lev_snoc_snoc`. -/
lemma min_grid_comm (s1 s2 a b c p1 p2 p3 p4 p5 p6 : ℕ) :
    min (min (a + s2) (min (p1 + 1) (p2 + 1)) + s1)
      (min (min (b + s2) (min (p3 + 1) (p4 + 1)) + 1)
        (min (c + s2) (min (p5 + 1) (p6 + 1)) + 1)) =
    min (min (a + s1) (min (b + 1) (c + 1)) + s2)
      (min (min (p1 + s1) (min (p3 + 1) (p5 + 1)) + 1)
        (min (p2 + s1) (min (p4 + 1) (p6 + 1)) + 1)) := by
  simp only [← min_add_add_right]
  apply le_antisymm <;>
    simp only [le_min_iff, min_le_iff] <;>
    refine ⟨⟨?_, ?_, ?_⟩, ⟨?_, ?_, ?_⟩, ?_, ?_, ?_⟩ <;>
    omega

/-- The "snoc" recurrence: the classic distance satisfies the same
recurrence on final elements that the source's DP matrix uses. -/
theorem lev_snoc_snoc : ∀ (xs ys : List α) (x y : α),
    levenshtein (xs ++ [x]) (ys ++ [y]) =
      min (levenshtein xs ys + subCost x y)
        (min (levenshtein (xs ++ [x]) ys + 1) (levenshtein xs (ys ++ [y]) + 1)) := by
  intro xs ys x y
  match xs, ys with
  | [], [] =>
    simp only [List.nil_append]
    rw [levenshtein_cons_cons x y [] []]
  | [], y' :: ys' =>
    simp only [List.nil_append, List.cons_append]
    rw [levenshtein_cons_cons x y' [] (ys' ++ [y])]
    simp only [levenshtein_nil_left, levenshtein_nil_right, List.length_append,
      List.length_cons, List.length_nil,
      lev_single_left, List.mem_append, List.mem_cons, List.mem_singleton,
      List.not_mem_nil, or_false, false_or, eq_comm]
    unfold subCost
    split_ifs <;> first | omega | tauto
  | x' :: xs', [] =>
    simp only [List.nil_append, List.cons_append]
    rw [levenshtein_cons_cons x' y (xs' ++ [x]) []]
    simp only [levenshtein_nil_left, levenshtein_nil_right, List.length_append,
      List.length_cons, List.length_nil,
      lev_single_right, List.mem_append, List.mem_cons, List.mem_singleton,
      List.not_mem_nil, or_false, false_or, eq_comm]
    unfold subCost
    split_ifs <;> first | omega | tauto
  | x' :: xs', y' :: ys' =>
    have ih1 := lev_snoc_snoc xs' ys' x y
    have ih2 := lev_snoc_snoc (x' :: xs') ys' x y
    have ih3 := lev_snoc_snoc xs' (y' :: ys') x y
    simp only [List.cons_append] at *
    rw [levenshtein_cons_cons x' y' (xs' ++ [x]) (ys' ++ [y]),
      levenshtein_cons_cons x' y' xs' ys',
      levenshtein_cons_cons x' y' (xs' ++ [x]) ys',
      levenshtein_cons_cons x' y' xs' (ys' ++ [y]), ih1, ih2, ih3]
    exact min_grid_comm (subCost x' y') (subCost x y)
      (levenshtein xs' ys') (levenshtein (x' :: xs') ys') (levenshtein xs' (y' :: ys'))
      (levenshtein (xs' ++ [x]) ys') (levenshtein xs' (ys' ++ [y]))
      (levenshtein (x' :: (xs' ++ [x])) ys') (levenshtein (x' :: xs') (ys' ++ [y]))
      (levenshtein (xs' ++ [x]) (y' :: ys')) (levenshtein xs' (y' :: (ys' ++ [y])))
termination_by xs ys => xs.length + ys.length
decreasing_by all_goals simp only [List.length_cons]; omega

theorem lev_le_snoc_left : ∀ (xs ys : List α) (x : α),
    levenshtein xs ys ≤ levenshtein (xs ++ [x]) ys + 1 := by
  intro xs ys x
  match xs, ys with
  | xs, [] => simp only [levenshtein_nil_right, List.length_append]; omega
  | [], y :: ys =>
    simp only [List.nil_append, levenshtein_nil_left, lev_single_left]
    split_ifs <;> simp only [List.length_cons] <;> omega
  | x' :: xs', y' :: ys' =>
    have ih1 := lev_le_snoc_left xs' ys' x
    have ih2 := lev_le_snoc_left (x' :: xs') ys' x
    have ih3 := lev_le_snoc_left xs' (y' :: ys') x
    simp only [List.cons_append] at *
    rw [levenshtein_cons_cons x' y' xs' ys',
      levenshtein_cons_cons x' y' (xs' ++ [x]) ys']
    omega
termination_by xs ys => xs.length + ys.length
decreasing_by all_goals simp only [List.length_cons]; omega

theorem lev_le_snoc_right : ∀ (xs ys : List α) (y : α),
    levenshtein xs ys ≤ levenshtein xs (ys ++ [y]) + 1 := by
  intro xs ys y
  match xs, ys with
  | [], ys => simp only [levenshtein_nil_left, List.length_append]; omega
  | x :: xs, [] =>
    simp only [List.nil_append, levenshtein_nil_right, lev_single_right]
    split_ifs <;> simp only [List.length_cons] <;> omega
  | x' :: xs', y' :: ys' =>
    have ih1 := lev_le_snoc_right xs' ys' y
    have ih2 := lev_le_snoc_right (x' :: xs') ys' y
    have ih3 := lev_le_snoc_right xs' (y' :: ys') y
    simp only [List.cons_append] at *
    rw [levenshtein_cons_cons x' y' xs' ys',
      levenshtein_cons_cons x' y' xs' (ys' ++ [y])]
    omega
termination_by xs ys => xs.length + ys.length
decreasing_by all_goals simp only [List.length_cons]; omega
/-- The dynamic-programming matrix computes the classic Levenshtein
distance of the corresponding prefixes. -/
theorem levMatrix_eq (t1 t2 : List α) : ∀ i j, i ≤ t1.length → j ≤ t2.length →
    levMatrix t1 t2 i j = levenshtein (t1.take i) (t2.take j) := by
  intro i j hi hj
  match i, j with
  | 0, j =>
    rw [levMatrix]
    simp [List.length_take, Nat.min_eq_left hj]
  | i + 1, 0 =>
    rw [levMatrix]
    simp [List.length_take, Nat.min_eq_left hi]
  | i + 1, j + 1 =>
    have hia : i < t1.length := by omega
    have hja : j < t2.length := by omega
    have ha : t1[i]? = some t1[i] := List.getElem?_eq_getElem hia
    have hb : t2[j]? = some t2[j] := List.getElem?_eq_getElem hja
    have hta : t1.take (i + 1) = t1.take i ++ [t1[i]] := by
      rw [List.take_succ, ha]; rfl
    have htb : t2.take (j + 1) = t2.take j ++ [t2[j]] := by
      rw [List.take_succ, hb]; rfl
    have ih1 := levMatrix_eq t1 t2 i j (by omega) (by omega)
    have ih2 := levMatrix_eq t1 t2 (i + 1) j (by omega) (by omega)
    have ih3 := levMatrix_eq t1 t2 i (j + 1) (by omega) (by omega)
    rw [levMatrix, hta, htb, lev_snoc_snoc, ha, hb]
    rw [ih1, ih2, ih3, hta, htb]
    by_cases heq : t1[i] = t2[j]
    · have hs : subCost t1[i] t2[j] = 0 := by simp [subCost, heq]
      have hl1 := lev_le_snoc_left (t1.take i) (t2.take j) t1[i]
      have hl2 := lev_le_snoc_right (t1.take i) (t2.take j) t2[j]
      rw [if_pos (by rw [heq]), hs]
      omega
    · have hs : subCost t1[i] t2[j] = 1 := by simp [subCost, heq]
      rw [if_neg (by simpa using heq), hs]
termination_by i j => i + j
decreasing_by all_goals omega

end EditDistance

/-- **C5 (counterexample).** On the concrete input of two empty token
sequences the scorer computes `1 - 0/0`, which is `NaN` in JavaScript
(modelled as `none`): it does not return any rational number, so in
particular no value in `[0, 1]`, refuting the claim's universal
statement. -/
theorem claim5_counterexample :
    calculateSimilarity ([] : List Str) [] = none ∧
    ¬ ∃ q : ℚ, calculateSimilarity ([] : List Str) [] = some q := by
  refine ⟨rfl, ?_⟩
  rintro ⟨q, hq⟩
  simp [calculateSimilarity] at hq

/-- **C5 (amended).** For every pair of token sequences that are not both
empty, the similarity scorer returns exactly `1` minus the Levenshtein
edit distance (insertion, deletion and substitution each of cost 1)
divided by the maximum of the two sequence lengths; this value lies in
`[0, 1]`, and fuzzy matching accepts exactly when it is at least `0.8`.
(When both sequences are empty the JavaScript code yields `NaN`.) -/
theorem claim5_similarity_spec (t1 t2 : List Str) (h : t1 ≠ [] ∨ t2 ≠ []) :
    ∃ q : ℚ,
      calculateSimilarity t1 t2 = some q ∧
      q = 1 - (levenshtein t1 t2 : ℚ) / ((max t1.length t2.length : ℕ) : ℚ) ∧
      0 ≤ q ∧ q ≤ 1 ∧
      ∀ (content : Str) (pattern : RegExpM),
        tokenize content = t1 → tokenize pattern.source = t2 →
        (matchesWithTokens content pattern = true ↔ (0.8 : ℚ) ≤ q) := by
  have hmax : max t1.length t2.length ≠ 0 := by
    rcases h with h | h
    · have : 0 < t1.length := List.length_pos.mpr h
      omega
    · have : 0 < t2.length := List.length_pos.mpr h
      omega
  have hdp : levMatrix t1 t2 t1.length t2.length = levenshtein t1 t2 := by
    rw [levMatrix_eq t1 t2 t1.length t2.length le_rfl le_rfl,
      List.take_length, List.take_length]
  refine ⟨_, ?_, rfl, ?_, ?_, ?_⟩
  · unfold calculateSimilarity
    rw [if_neg hmax, hdp]
  · -- 0 ≤ 1 - d / max
    have hd : levenshtein t1 t2 ≤ max t1.length t2.length := levenshtein_le_max t1 t2
    have hm : (0 : ℚ) < ((max t1.length t2.length : ℕ) : ℚ) := by
      exact_mod_cast Nat.pos_of_ne_zero hmax
    have : ((levenshtein t1 t2 : ℕ) : ℚ) / ((max t1.length t2.length : ℕ) : ℚ) ≤ 1 := by
      rw [div_le_one hm]
      exact_mod_cast hd
    linarith
  · -- 1 - d / max ≤ 1
    have hm : (0 : ℚ) < ((max t1.length t2.length : ℕ) : ℚ) := by
      exact_mod_cast Nat.pos_of_ne_zero hmax
    have : (0 : ℚ) ≤ ((levenshtein t1 t2 : ℕ) : ℚ) / ((max t1.length t2.length : ℕ) : ℚ) := by
      positivity
    linarith
  · intro content pattern hc hp
    have hcs : calculateSimilarity t1 t2 =
        some (1 - (levenshtein t1 t2 : ℚ) / ((max t1.length t2.length : ℕ) : ℚ)) := by
      unfold calculateSimilarity
      rw [if_neg hmax, hdp]
    simp only [matchesWithTokens, hc, hp, hcs, SIMILARITY_THRESHOLD]
    simp

/-- Witness for `claim5_similarity_spec` at the concrete token sequences
`[\"bar\"]` and `[\"bar\"]` (hypothesis discharged by evaluation). -/
theorem claim5_similarity_spec_witness :
    (([['b', 'a', 'r']] : List Str) ≠ [] ∨ ([['b', 'a', 'r']] : List Str) ≠ []) ∧
    ∃ q : ℚ,
      calculateSimilarity [['b', 'a', 'r']] [['b', 'a', 'r']] = some q ∧
      q = 1 - (levenshtein [['b', 'a', 'r']] [['b', 'a', 'r']] : ℚ) /
        ((max ([['b', 'a', 'r']] : List Str).length ([['b', 'a', 'r']] : List Str).length : ℕ) : ℚ) ∧
      0 ≤ q ∧ q ≤ 1 ∧
      ∀ (content : Str) (pattern : RegExpM),
        tokenize content = [['b', 'a', 'r']] → tokenize pattern.source = [['b', 'a', 'r']] →
        (matchesWithTokens content pattern = true ↔ (0.8 : ℚ) ≤ q) :=
  ⟨Or.inl (by decide),
    claim5_similarity_spec [['b', 'a', 'r']] [['b', 'a', 'r']] (Or.inl (by decide))⟩

section LCS

variable {α : Type} [DecidableEq α]

omit [DecidableEq α] in
lemma sublist_of_sublist_singleton {l : List α} {a : α}
    (h : List.Sublist l [a]) : l = [] ∨ l = [a] := by
  cases h with
  | cons _ h' => exact Or.inl (List.sublist_nil.mp h')
  | cons₂ _ h' => exact Or.inr (by rw [List.sublist_nil.mp h'])

omit [DecidableEq α] in
lemma take_sublist_take_succ (l : List α) (i : ℕ) :
    List.Sublist (l.take i) (l.take (i + 1)) := by
  have : l.take i = (l.take (i + 1)).take i := by
    rw [List.take_take]
    congr 1
    omega
  rw [this]
  exact List.take_sublist _ _

/-- The reconstructed walk is a common subsequence of the two prefixes. -/
theorem lcsWalk_sublist (t1 t2 : List α) : ∀ i j, i ≤ t1.length → j ≤ t2.length →
    List.Sublist (lcsWalk t1 t2 i j) (t1.take i) ∧ List.Sublist (lcsWalk t1 t2 i j) (t2.take j) := by
  intro i j hi hj
  match i, j with
  | 0, j => rw [lcsWalk]; exact ⟨List.nil_sublist _, List.nil_sublist _⟩
  | i + 1, 0 => rw [lcsWalk]; exact ⟨List.nil_sublist _, List.nil_sublist _⟩
  | i + 1, j + 1 =>
    have hia : i < t1.length := by omega
    have hja : j < t2.length := by omega
    have ha : t1[i]? = some t1[i] := List.getElem?_eq_getElem hia
    have hb : t2[j]? = some t2[j] := List.getElem?_eq_getElem hja
    have hta : t1.take (i + 1) = t1.take i ++ [t1[i]] := by
      rw [List.take_succ, ha]; rfl
    have htb : t2.take (j + 1) = t2.take j ++ [t2[j]] := by
      rw [List.take_succ, hb]; rfl
    rw [lcsWalk]
    by_cases heq : t1[i]? = t2[j]?
    · rw [if_pos heq, ha]
      have ihw := lcsWalk_sublist t1 t2 i j (by omega) (by omega)
      have hab : t1[i] = t2[j] := by
        rw [ha, hb] at heq
        exact Option.some.inj heq
      constructor
      · rw [hta]
        exact List.Sublist.append ihw.1 (by simp)
      · rw [htb]
        refine List.Sublist.append ihw.2 ?_
        simp [hab]
    · rw [if_neg heq]
      by_cases hcmp : lcsLen t1 t2 i (j + 1) > lcsLen t1 t2 (i + 1) j
      · rw [if_pos hcmp]
        have ihw := lcsWalk_sublist t1 t2 i (j + 1) (by omega) (by omega)
        exact ⟨ihw.1.trans (take_sublist_take_succ t1 i), ihw.2⟩
      · rw [if_neg hcmp]
        have ihw := lcsWalk_sublist t1 t2 (i + 1) j (by omega) (by omega)
        exact ⟨ihw.1, ihw.2.trans (take_sublist_take_succ t2 j)⟩
termination_by i j => i + j
decreasing_by all_goals omega

/-- The reconstructed walk has the length recorded in the LCS matrix. -/
theorem lcsWalk_length (t1 t2 : List α) : ∀ i j, i ≤ t1.length → j ≤ t2.length →
    (lcsWalk t1 t2 i j).length = lcsLen t1 t2 i j := by
  intro i j hi hj
  match i, j with
  | 0, j => rw [lcsWalk, lcsLen]; rfl
  | i + 1, 0 => rw [lcsWalk, lcsLen]; rfl
  | i + 1, j + 1 =>
    have hia : i < t1.length := by omega
    have ha : t1[i]? = some t1[i] := List.getElem?_eq_getElem hia
    rw [lcsWalk, lcsLen]
    by_cases heq : t1[i]? = t2[j]?
    · rw [if_pos heq, if_pos heq, ha]
      have ihl := lcsWalk_length t1 t2 i j (by omega) (by omega)
      simp [ihl]
    · rw [if_neg heq, if_neg heq]
      by_cases hcmp : lcsLen t1 t2 i (j + 1) > lcsLen t1 t2 (i + 1) j
      · rw [if_pos hcmp]
        have ihl := lcsWalk_length t1 t2 i (j + 1) (by omega) (by omega)
        rw [ihl]
        omega
      · rw [if_neg hcmp]
        have ihl := lcsWalk_length t1 t2 (i + 1) j (by omega) (by omega)
        rw [ihl]
        omega
termination_by i j => i + j
decreasing_by all_goals omega

/-- Every common subsequence of the two prefixes is no longer than the
LCS matrix entry: the matrix really computes the *longest* common
subsequence length. -/
theorem lcsLen_maximal (t1 t2 : List α) : ∀ i j, i ≤ t1.length → j ≤ t2.length →
    ∀ l : List α, List.Sublist l (t1.take i) → List.Sublist l (t2.take j) →
      l.length ≤ lcsLen t1 t2 i j := by
  intro i j hi hj l hl1 hl2
  match i, j with
  | 0, j =>
    rw [List.take_zero] at hl1
    rw [List.sublist_nil.mp hl1]
    simp
  | i + 1, 0 =>
    rw [List.take_zero] at hl2
    rw [List.sublist_nil.mp hl2]
    simp
  | i + 1, j + 1 =>
    have hia : i < t1.length := by omega
    have hja : j < t2.length := by omega
    have ha : t1[i]? = some t1[i] := List.getElem?_eq_getElem hia
    have hb : t2[j]? = some t2[j] := List.getElem?_eq_getElem hja
    have hta : t1.take (i + 1) = t1.take i ++ [t1[i]] := by
      rw [List.take_succ, ha]; rfl
    have htb : t2.take (j + 1) = t2.take j ++ [t2[j]] := by
      rw [List.take_succ, hb]; rfl
    rw [hta] at hl1
    rw [htb] at hl2
    obtain ⟨u1, u2, hu, hu1, hu2⟩ := List.sublist_append_iff.mp hl1
    rw [lcsLen]
    by_cases heq : t1[i]? = t2[j]?
    · have hab : t1[i] = t2[j] := by
        rw [ha, hb] at heq
        exact Option.some.inj heq
      rw [if_pos heq]
      rcases sublist_of_sublist_singleton hu2 with h2 | h2
      · -- l is a sublist of the shorter first prefix
        subst h2
        rw [List.append_nil] at hu
        subst hu
        obtain ⟨v1, v2, hv, hv1, hv2⟩ := List.sublist_append_iff.mp hl2
        rcases sublist_of_sublist_singleton hv2 with h3 | h3
        · subst h3
          rw [List.append_nil] at hv
          subst hv
          have := lcsLen_maximal t1 t2 i j (by omega) (by omega) l hu1 hv1
          omega
        · subst h3
          subst hv
          have hv1' : List.Sublist v1 (t1.take i) := by
            have hvv : List.Sublist v1 (v1 ++ [t2[j]]) := by simp
            exact hvv.trans hu1
          have := lcsLen_maximal t1 t2 i j (by omega) (by omega) v1 hv1' hv1
          simp only [List.length_append, List.length_cons, List.length_nil]
          omega
      · -- l ends with the shared final token
        subst h2
        subst hu
        have hu1' : List.Sublist u1 (t2.take j) := by
          obtain ⟨v1, v2, hv, hv1, hv2⟩ := List.sublist_append_iff.mp hl2
          rcases sublist_of_sublist_singleton hv2 with h3 | h3
          · subst h3
            rw [List.append_nil] at hv
            subst hv
            have huu : List.Sublist u1 (u1 ++ [t1[i]]) := by simp
            exact huu.trans hv1
          · subst h3
            have hlast : (u1 ++ [t1[i]]).getLast? = (v1 ++ [t2[j]]).getLast? := by
              rw [hv]
            rw [List.getLast?_concat, List.getLast?_concat] at hlast
            have huv : u1 = v1 := by
              have := List.append_inj_left hv ?_
              · exact this
              · have h1 := congrArg List.length hv
                simp only [List.length_append, List.length_cons,
                  List.length_nil] at h1
                omega
            rw [huv]
            exact hv1
        have := lcsLen_maximal t1 t2 i j (by omega) (by omega) u1 hu1 hu1'
        simp only [List.length_append, List.length_cons, List.length_nil]
        omega
    · rw [if_neg heq]
      rcases sublist_of_sublist_singleton hu2 with h2 | h2
      · -- l avoids t1's final token: bounded by the (i, j+1) entry
        subst h2
        rw [List.append_nil] at hu
        subst hu
        have hl2' : List.Sublist l (t2.take (j + 1)) := by
          rw [htb]
          exact hl2
        have := lcsLen_maximal t1 t2 i (j + 1) (by omega) (by omega) l hu1 hl2'
        omega
      · -- l ends with t1's final token, which t2's prefix cannot also
        -- provide (the two final tokens differ), so l avoids t2's final
        subst h2
        subst hu
        obtain ⟨v1, v2, hv, hv1, hv2⟩ := List.sublist_append_iff.mp hl2
        rcases sublist_of_sublist_singleton hv2 with h3 | h3
        · subst h3
          rw [List.append_nil] at hv
          rw [← hv] at hv1
          have hl1' : List.Sublist (u1 ++ [t1[i]]) (t1.take (i + 1)) := by
            rw [hta]
            exact hl1
          have := lcsLen_maximal t1 t2 (i + 1) j (by omega) (by omega) _ hl1' hv1
          omega
        · subst h3
          exfalso
          have hlast : (u1 ++ [t1[i]]).getLast? = (v1 ++ [t2[j]]).getLast? := by
            rw [hv]
          rw [List.getLast?_concat, List.getLast?_concat] at hlast
          have : t1[i] = t2[j] := Option.some.inj hlast
          rw [ha, hb] at heq
          exact heq (by rw [this])
termination_by i j => i + j
decreasing_by all_goals omega

end LCS

/-- The merge loop visits positions `i, i+1, …, max(len)-1` strictly in
step (all three indices advance together), emitting one token per
position according to `mergeStep` and recording one conflict message,
naming the position, for each conflicting step. -/
theorem mergeLoop_closed (bs cs ts : List Str) :
    ∀ (i : ℕ) (acc : List (Option Str)) (conf : List String), acc.length = i →
    mergeLoop bs cs ts i i i acc conf =
      (acc ++ (List.range' i (max (max bs.length cs.length) ts.length - i)).map
          (fun idx => (mergeStep (bs[idx]?) (cs[idx]?) (ts[idx]?)).1),
       conf ++ (List.range' i (max (max bs.length cs.length) ts.length - i)).filterMap
          (fun idx => if (mergeStep (bs[idx]?) (cs[idx]?) (ts[idx]?)).2
            then some ("Conflict at position " ++ toString idx) else none)) := by
  intro i acc conf hacc
  by_cases hlt : i < max (max bs.length cs.length) ts.length
  · have hrange : max (max bs.length cs.length) ts.length - i =
        (max (max bs.length cs.length) ts.length - (i + 1)) + 1 := by omega
    rw [mergeLoop, dif_pos (by omega)]
    have ih := mergeLoop_closed bs cs ts (i + 1)
    rw [hrange, List.range'_succ]
    by_cases h1 : cs[i]? = ts[i]?
    · rw [if_pos h1, ih (acc ++ [cs[i]?]) conf (by simp [hacc])]
      simp only [mergeStep, if_pos h1, List.map_cons, List.filterMap_cons,
        if_neg Bool.false_ne_true, List.append_assoc, List.cons_append,
        List.nil_append]
    · rw [if_neg h1]
      by_cases h2 : cs[i]? = bs[i]?
      · rw [if_pos h2, ih (acc ++ [ts[i]?]) conf (by simp [hacc])]
        simp only [mergeStep, if_neg h1, if_pos h2, List.map_cons,
          List.filterMap_cons, if_neg Bool.false_ne_true, List.append_assoc,
          List.cons_append, List.nil_append]
      · rw [if_neg h2]
        by_cases h3 : ts[i]? = bs[i]?
        · rw [if_pos h3, ih (acc ++ [cs[i]?]) conf (by simp [hacc])]
          simp only [mergeStep, if_neg h1, if_neg h2, if_pos h3, List.map_cons,
            List.filterMap_cons, if_neg Bool.false_ne_true, List.append_assoc,
            List.cons_append, List.nil_append]
        · rw [if_neg h3,
            ih (acc ++ [jsOrStr cs[i]? ts[i]?]) (conf ++ ["Conflict at position " ++ toString acc.length]) (by simp [hacc])]
          simp only [mergeStep, if_neg h1, if_neg h2, if_neg h3, List.map_cons,
            List.filterMap_cons, if_pos rfl, hacc, List.append_assoc,
            List.cons_append, List.nil_append]
          rfl
  · have hz : max (max bs.length cs.length) ts.length - i = 0 := by omega
    rw [mergeLoop, dif_neg (by omega)]
    rw [hz]
    simp
termination_by i => max (max bs.length cs.length) ts.length - i
decreasing_by all_goals omega

lemma consHead_eq (ch : Char) (ll : List Str) :
    consHead ch ll = (ch :: ll.headD []) :: ll.tail := by
  cases ll <;> rfl

lemma splitLinesCRLF_ne_nil (s : Str) : splitLinesCRLF s ≠ [] := by
  induction s using splitLinesCRLF.induct with
  | case1 => simp [splitLinesCRLF]
  | case2 rest ih => simp [splitLinesCRLF]
  | case3 rest ih => simp [splitLinesCRLF]
  | case4 rest ih => simp [splitLinesCRLF]
  | case5 ch rest h1 h2 h3 ih => simp [splitLinesCRLF, consHead_eq]

lemma splitLinesCRLF_cons_other {d : Char} (hd1 : d ≠ '\r') (hd2 : d ≠ '\n')
    (s : Str) : splitLinesCRLF (d :: s) = consHead d (splitLinesCRLF s) := by
  rw [splitLinesCRLF.eq_def]
  split <;> simp_all

lemma splitLinesCRLF_crlf (y : Str) :
    splitLinesCRLF ('\r' :: '\n' :: y) = [] :: splitLinesCRLF y := by
  rw [splitLinesCRLF]

lemma splitLinesCRLF_lf (y : Str) :
    splitLinesCRLF ('\n' :: y) = [] :: splitLinesCRLF y := by
  rw [splitLinesCRLF.eq_def]
  split <;> try simp_all
  rename_i hr hn heq
  exact absurd heq.1.symm hn

lemma splitLinesCRLF_cr {y : Str} (hy : y.head? ≠ some '\n') :
    splitLinesCRLF ('\r' :: y) = [] :: splitLinesCRLF y := by
  rw [splitLinesCRLF.eq_def]
  split <;> try simp_all
  rename_i hr hn heq
  exact absurd heq.1.symm hr

lemma splitLinesCRLF_noCRLF (s : Str) : ∀ l ∈ splitLinesCRLF s, noCRLF l := by
  induction s using splitLinesCRLF.induct with
  | case1 => intro l hl; simp [splitLinesCRLF] at hl; simp [hl, noCRLF]
  | case2 rest ih =>
    intro l hl
    rw [splitLinesCRLF_crlf] at hl
    rcases List.mem_cons.mp hl with h | h
    · simp [h, noCRLF]
    · exact ih l h
  | case3 rest hne ih =>
    intro l hl
    rw [splitLinesCRLF_cr ?_] at hl
    · rcases List.mem_cons.mp hl with h | h
      · simp [h, noCRLF]
      · exact ih l h
    · intro hhd
      rcases rest with _ | ⟨d, rest'⟩
      · simp at hhd
      · simp only [List.head?_cons, Option.some.injEq] at hhd
        exact hne rest' (by rw [hhd])
  | case4 rest ih =>
    intro l hl
    rw [splitLinesCRLF_lf] at hl
    rcases List.mem_cons.mp hl with h | h
    · simp [h, noCRLF]
    · exact ih l h
  | case5 ch rest h1 h2 h3 ih =>
    intro l hl
    rw [splitLinesCRLF_cons_other h2 h3, consHead_eq] at hl
    rcases List.mem_cons.mp hl with h | h
    · subst h
      have hhd : (splitLinesCRLF rest).headD [] ∈ splitLinesCRLF rest := by
        rcases hsp : splitLinesCRLF rest with _ | ⟨a, as⟩
        · exact absurd hsp (splitLinesCRLF_ne_nil rest)
        · simp
      have := ih _ hhd
      refine ⟨?_, ?_⟩ <;> simp only [List.mem_cons] <;> rintro (h | h)
      · exact h2 h.symm
      · exact this.1 h
      · exact h3 h.symm
      · exact this.2 h
    · have hsub : l ∈ splitLinesCRLF rest := by
        rcases hsp : splitLinesCRLF rest with _ | ⟨a, as⟩
        · rw [hsp] at h; simp at h
        · rw [hsp] at h
          simp only [List.tail_cons] at h
          exact List.mem_cons_of_mem a h
      exact ih l hsub

lemma splitLines_append {l : Str} (hl : noCRLF l) (x : Str) :
    splitLinesCRLF (l ++ x) =
      (l ++ (splitLinesCRLF x).headD []) :: (splitLinesCRLF x).tail := by
  induction l with
  | nil =>
    simp only [List.nil_append]
    rcases hsp : splitLinesCRLF x with _ | ⟨a, as⟩
    · exact absurd hsp (splitLinesCRLF_ne_nil x)
    · simp
  | cons d l' ih =>
    have hd1 : d ≠ '\r' := fun h => hl.1 (by simp [h])
    have hd2 : d ≠ '\n' := fun h => hl.2 (by simp [h])
    have hl' : noCRLF l' := ⟨fun h => hl.1 (List.mem_cons_of_mem d h),
      fun h => hl.2 (List.mem_cons_of_mem d h)⟩
    rw [List.cons_append, splitLinesCRLF_cons_other hd1 hd2, ih hl', consHead_eq]
    simp

lemma intercalate_singleton (sep l : Str) : List.intercalate sep [l] = l := by
  simp [List.intercalate]

lemma intercalate_cons_cons (sep l l2 : Str) (rest : List Str) :
    List.intercalate sep (l :: l2 :: rest) =
      l ++ sep ++ List.intercalate sep (l2 :: rest) := by
  simp [List.intercalate, List.intersperse]

lemma head?_intercalate_cr {ls : List Str} (h : ∀ l ∈ ls, '\n' ∉ l) :
    (List.intercalate (str "\r") ls).head? ≠ some '\n' := by
  rcases ls with _ | ⟨l, rest⟩
  · simp [List.intercalate]
  · rcases rest with _ | ⟨l2, rest'⟩
    · rw [intercalate_singleton]
      rcases l with _ | ⟨d, l'⟩
      · simp
      · simp only [List.head?_cons]
        intro hc
        have hd : d = '\n' := Option.some.inj hc
        exact (h (d :: l') (by simp)) (by simp [hd])
    · rw [intercalate_cons_cons]
      rcases l with _ | ⟨d, l'⟩
      · simp [str]
      · simp only [List.nil_append, List.cons_append, List.append_assoc,
          List.head?_cons]
        intro hc
        have hd : d = '\n' := Option.some.inj hc
        exact (h (d :: l') (by simp)) (by simp [hd])

lemma splitLines_intercalate {sep : Str}
    (hsep : sep = str "\n" ∨ sep = str "\r\n" ∨ sep = str "\r") :
    ∀ ls : List Str, ls ≠ [] → (∀ l ∈ ls, noCRLF l) →
      splitLinesCRLF (List.intercalate sep ls) = ls := by
  intro ls
  induction ls with
  | nil => intro h; exact absurd rfl h
  | cons l rest ih =>
    intro _ hno
    rcases rest with _ | ⟨l2, rest'⟩
    · rw [intercalate_singleton]
      have h0 := splitLines_append (hno l (by simp)) []
      rw [List.append_nil] at h0
      simpa [splitLinesCRLF] using h0
    · rw [intercalate_cons_cons, List.append_assoc,
        splitLines_append (hno l (by simp))]
      have hrec : splitLinesCRLF (List.intercalate sep (l2 :: rest')) =
          l2 :: rest' := by
        refine ih (by simp) ?_
        intro l' hl'
        exact hno l' (List.mem_cons_of_mem l hl')
      have hsepfst : splitLinesCRLF (sep ++ List.intercalate sep (l2 :: rest')) =
          [] :: (l2 :: rest') := by
        rcases hsep with h | h | h
        · subst h
          rw [show str "\n" ++ List.intercalate (str "\n") (l2 :: rest') =
            '\n' :: List.intercalate (str "\n") (l2 :: rest') from rfl]
          rw [splitLinesCRLF_lf, hrec]
        · subst h
          rw [show str "\r\n" ++ List.intercalate (str "\r\n") (l2 :: rest') =
            '\r' :: '\n' :: List.intercalate (str "\r\n") (l2 :: rest') from rfl]
          rw [splitLinesCRLF_crlf, hrec]
        · subst h
          rw [show str "\r" ++ List.intercalate (str "\r") (l2 :: rest') =
            '\r' :: List.intercalate (str "\r") (l2 :: rest') from rfl]
          rw [splitLinesCRLF_cr, hrec]
          exact head?_intercalate_cr
            (fun l' hl' => (hno l' (List.mem_cons_of_mem l hl')).2)
      rw [hsepfst]
      simp

lemma mem_intercalate {c0 : Char} {sep : Str} :
    ∀ {ls : List Str}, c0 ∈ List.intercalate sep ls →
      c0 ∈ sep ∨ ∃ l ∈ ls, c0 ∈ l := by
  intro ls
  induction ls with
  | nil => intro h; simp [List.intercalate] at h
  | cons l rest ih =>
    intro h
    rcases rest with _ | ⟨l2, rest'⟩
    · rw [intercalate_singleton] at h
      exact Or.inr ⟨l, by simp, h⟩
    · rw [intercalate_cons_cons, List.append_assoc] at h
      rcases List.mem_append.mp h with h | h
      · exact Or.inr ⟨l, by simp, h⟩
      · rcases List.mem_append.mp h with h | h
        · exact Or.inl h
        · rcases ih h with h | ⟨l', hl', hc⟩
          · exact Or.inl h
          · exact Or.inr ⟨l', List.mem_cons_of_mem l hl', hc⟩

lemma listStartsWith_append_self (n v : Str) :
    listStartsWith n (n ++ v) = true := by
  induction n with
  | nil => rfl
  | cons a as ih => simp [listStartsWith, ih]

lemma containsSub_self_append (n v : Str) : containsSub n (n ++ v) = true := by
  rcases n with _ | ⟨a, as⟩
  · rcases v with _ | ⟨ch, rest⟩
    · rfl
    · rw [List.nil_append, containsSub]
      simp [listStartsWith]
  · have hs := listStartsWith_append_self (a :: as) v
    rw [List.cons_append] at hs ⊢
    rw [containsSub, hs]
    simp

lemma containsSub_of_append (n u v : Str) :
    containsSub n (u ++ (n ++ v)) = true := by
  induction u with
  | nil =>
    simpa using containsSub_self_append n v
  | cons d u' ih =>
    rw [List.cons_append, containsSub, ih]
    simp

lemma mem_of_containsSub_crlf {hay : Str}
    (h : containsSub (str "\r\n") hay = true) : '\r' ∈ hay ∧ '\n' ∈ hay := by
  induction hay with
  | nil => simp [containsSub, listStartsWith, str] at h
  | cons ch rest ih =>
    rw [containsSub, Bool.or_eq_true] at h
    rcases h with h | h
    · rcases rest with _ | ⟨d, rest'⟩
      · simp [listStartsWith, str] at h
      · simp only [str, String.toList] at h
        have h1 : '\r' = ch ∧ '\n' = d := by
          simpa [listStartsWith] using h
        simp [← h1.1, ← h1.2]
    · have := ih h
      exact ⟨List.mem_cons_of_mem ch this.1, List.mem_cons_of_mem ch this.2⟩

lemma containsSub_single_iff {c0 : Char} {hay : Str} :
    containsSub [c0] hay = true ↔ c0 ∈ hay := by
  induction hay with
  | nil => simp [containsSub, listStartsWith]
  | cons ch rest ih =>
    rw [containsSub, Bool.or_eq_true, ih]
    simp [listStartsWith]
    try tauto

lemma detectLineEnding_mem_three (s : Str) :
    detectLineEnding s = str "\n" ∨ detectLineEnding s = str "\r\n" ∨
      detectLineEnding s = str "\r" := by
  unfold detectLineEnding
  split
  · simp
  · split <;> simp

lemma dropWhile_idem (p : Char → Bool) (l : Str) :
    (l.dropWhile p).dropWhile p = l.dropWhile p := by
  rcases hd : l.dropWhile p with _ | ⟨d, ds⟩
  · simp
  · rw [List.dropWhile_cons_of_neg]
    rw [dropWhile_head_not hd]
    simp

lemma stripTrailingST_idem (l : Str) :
    stripTrailingST (stripTrailingST l) = stripTrailingST l := by
  unfold stripTrailingST
  rw [List.reverse_reverse, dropWhile_idem]

lemma getLast?_stripTrailingST {l : Str} {cc : Char}
    (h : (stripTrailingST l).getLast? = some cc) : isST cc = false := by
  unfold stripTrailingST at h
  rw [List.getLast?_reverse] at h
  rcases hd : l.reverse.dropWhile isST with _ | ⟨d, ds⟩
  · rw [hd] at h; simp at h
  · rw [hd] at h
    simp only [List.head?_cons, Option.some.injEq] at h
    rw [← h]
    exact dropWhile_head_not hd

lemma strip_eq_self {l : Str}
    (h : ∀ cc, l.getLast? = some cc → isST cc = false) :
    stripTrailingST l = l := by
  unfold stripTrailingST
  rcases hrev : l.reverse with _ | ⟨cc, z⟩
  · rw [List.reverse_eq_nil_iff] at hrev
    simp [hrev]
  · have hcc : l.getLast? = some cc := by
      rw [← List.head?_reverse, hrev]
      rfl
    rw [List.dropWhile_cons_of_neg (by simp [h cc hcc]), ← hrev,
      List.reverse_reverse]

lemma takeWhile_append_all {p : Char → Bool} {D : Str}
    (hD : ∀ ch ∈ D, p ch = true) (rest : Str) :
    (D ++ rest).takeWhile p = D ++ rest.takeWhile p := by
  induction D with
  | nil => simp
  | cons d D' ih =>
    rw [List.cons_append, List.takeWhile_cons_of_pos (hD d (by simp))]
    rw [ih (fun ch hc => hD ch (List.mem_cons_of_mem d hc))]
    rfl

lemma dropWhile_append_all {p : Char → Bool} {D : Str}
    (hD : ∀ ch ∈ D, p ch = true) (rest : Str) :
    (D ++ rest).dropWhile p = rest.dropWhile p := by
  induction D with
  | nil => simp
  | cons d D' ih =>
    rw [List.cons_append, List.dropWhile_cons_of_pos (hD d (by simp))]
    exact ih (fun ch hc => hD ch (List.mem_cons_of_mem d hc))

lemma takeWhile_dropWhile_nil (p : Char → Bool) (l : Str) :
    (l.dropWhile p).takeWhile p = [] := by
  rcases hd : l.dropWhile p with _ | ⟨d, ds⟩
  · simp
  · rw [List.takeWhile_cons_of_neg]
    rw [dropWhile_head_not hd]
    simp

lemma leadingReplaceST_idem {l D : Str} (hD : ∀ ch ∈ D, isST ch = true)
    (hDne : D ≠ []) :
    leadingReplaceST (leadingReplaceST l D) D = leadingReplaceST l D := by
  unfold leadingReplaceST
  by_cases h : l.takeWhile isST = []
  · simp [h]
  · rw [if_neg h, if_neg, dropWhile_append_all hD, dropWhile_idem]
    rw [takeWhile_append_all hD, takeWhile_dropWhile_nil]
    simp [hDne]

lemma stripTrailing_leadingReplace {l D : Str} (hD : ∀ ch ∈ D, isST ch = true) :
    stripTrailingST (leadingReplaceST (stripTrailingST l) D) =
      leadingReplaceST (stripTrailingST l) D := by
  by_cases h : (stripTrailingST l).takeWhile isST = []
  · rw [leadingReplaceST, if_pos h, stripTrailingST_idem]
  · rw [leadingReplaceST, if_neg h]
    have hsne : stripTrailingST l ≠ [] := by
      intro hnil
      rw [hnil] at h
      simp at h
    have hrne : (stripTrailingST l).dropWhile isST ≠ [] := by
      intro hnil
      rw [List.dropWhile_eq_nil_iff] at hnil
      have hlast := List.getLast?_eq_getLast (stripTrailingST l) hsne
      have hmem := List.getLast_mem hsne
      have := getLast?_stripTrailingST hlast
      rw [hnil _ hmem] at this
      exact Bool.noConfusion this
    apply strip_eq_self
    intro cc hcc
    rw [List.getLast?_append_of_ne_nil _ hrne] at hcc
    have hs : (stripTrailingST l).getLast? = some cc := by
      conv_lhs => rw [← List.takeWhile_append_dropWhile isST (stripTrailingST l)]
      rw [List.getLast?_append_of_ne_nil _ hrne]
      exact hcc
    exact getLast?_stripTrailingST hs

lemma strOr_ne_nil {o : Option Str} {d : Str} (hd : d ≠ []) : strOr o d ≠ [] := by
  unfold strOr
  rcases o with _ | s
  · exact hd
  · by_cases hs : s = [] <;> simp [hs, hd]

lemma processLine_idem (cfg : WhitespaceConfig)
    (hI : tb cfg.preserveIndentation = true ∨
      ∀ ch ∈ strOr cfg.defaultIndentation (str "    "), isST ch = true)
    (l : Str) : processLine cfg (processLine cfg l) = processLine cfg l := by
  unfold processLine
  by_cases hpi : tb cfg.preserveIndentation = true
  · rw [if_pos hpi, if_pos hpi]
    by_cases htw : tb cfg.trimTrailingWhitespace = true
    · rw [if_pos htw, if_pos htw, stripTrailingST_idem]
    · rw [if_neg htw, if_neg htw]
  · have hD : ∀ ch ∈ strOr cfg.defaultIndentation (str "    "), isST ch = true := by
      rcases hI with hI | hI
      · exact absurd hI hpi
      · exact hI
    have hDne : strOr cfg.defaultIndentation (str "    ") ≠ [] :=
      strOr_ne_nil (by simp [str])
    rw [if_neg hpi, if_neg hpi]
    by_cases htw : tb cfg.trimTrailingWhitespace = true
    · rw [if_pos htw, if_pos htw,
        stripTrailing_leadingReplace hD, leadingReplaceST_idem hD hDne]
    · rw [if_neg htw, if_neg htw, leadingReplaceST_idem hD hDne]

lemma isST_not_crlf {ch : Char} (h : isST ch = true) : ch ≠ '\r' ∧ ch ≠ '\n' := by
  constructor <;> rintro rfl <;> simp [isST] at h

lemma noCRLF_stripTrailingST {l : Str} (hl : noCRLF l) :
    noCRLF (stripTrailingST l) := by
  have hsub : ∀ ch, ch ∈ stripTrailingST l → ch ∈ l := by
    intro ch hc
    unfold stripTrailingST at hc
    rw [List.mem_reverse] at hc
    have := (List.dropWhile_sublist (l := l.reverse) isST).subset hc
    rwa [List.mem_reverse] at this
  exact ⟨fun h => hl.1 (hsub _ h), fun h => hl.2 (hsub _ h)⟩

lemma noCRLF_leadingReplaceST {l D : Str} (hl : noCRLF l)
    (hD : ∀ ch ∈ D, isST ch = true) : noCRLF (leadingReplaceST l D) := by
  unfold leadingReplaceST
  split
  · exact hl
  · have hdw : ∀ ch, ch ∈ l.dropWhile isST → ch ∈ l :=
      fun ch hc => (List.dropWhile_sublist isST).subset hc
    constructor <;> intro hmem <;> rcases List.mem_append.mp hmem with h | h
    · exact (isST_not_crlf (hD _ h)).1 rfl
    · exact hl.1 (hdw _ h)
    · exact (isST_not_crlf (hD _ h)).2 rfl
    · exact hl.2 (hdw _ h)

lemma noCRLF_processLine (cfg : WhitespaceConfig)
    (hI : tb cfg.preserveIndentation = true ∨
      ∀ ch ∈ strOr cfg.defaultIndentation (str "    "), isST ch = true)
    {l : Str} (hl : noCRLF l) : noCRLF (processLine cfg l) := by
  unfold processLine
  have h1 : noCRLF (if tb cfg.trimTrailingWhitespace then stripTrailingST l else l) := by
    split
    · exact noCRLF_stripTrailingST hl
    · exact hl
  by_cases hpi : tb cfg.preserveIndentation
  · simpa [hpi] using h1
  · have hD : ∀ ch ∈ strOr cfg.defaultIndentation (str "    "), isST ch = true := by
      rcases hI with hI | hI
      · exact absurd hI hpi
      · exact hI
    simp only [hpi, if_false]
    exact noCRLF_leadingReplaceST h1 hD

lemma str_lf_eq : str "\n" = ['\n'] := rfl

lemma str_cr_eq : str "\r" = ['\r'] := rfl

lemma detect_intercalate_of_sep {sep : Str}
    (hsep : sep = str "\n" ∨ sep = str "\r\n" ∨ sep = str "\r")
    (l l2 : Str) (rest : List Str)
    (hno : ∀ x ∈ l :: l2 :: rest, noCRLF x) :
    detectLineEnding (List.intercalate sep (l :: l2 :: rest)) = sep := by
  have hN : List.intercalate sep (l :: l2 :: rest) =
      l ++ (sep ++ List.intercalate sep (l2 :: rest)) := by
    rw [intercalate_cons_cons, List.append_assoc]
  have hmem : ∀ c0, c0 ∈ List.intercalate sep (l :: l2 :: rest) →
      c0 ∈ sep ∨ ∃ x ∈ l :: l2 :: rest, c0 ∈ x := fun c0 => mem_intercalate
  rcases hsep with h | h | h
  · -- sep = "\n": no CR anywhere, so detection falls through to "\n"
    subst h
    have hnoCR : '\r' ∉ List.intercalate (str "\n") (l :: l2 :: rest) := by
      intro hc
      rcases hmem '\r' hc with hc | ⟨x, hx, hc⟩
      · simp [str] at hc
      · exact (hno x hx).1 hc
    unfold detectLineEnding
    rw [if_neg, if_neg]
    · intro hc
      rw [str_cr_eq, containsSub_single_iff] at hc
      exact hnoCR hc
    · intro hc
      exact hnoCR (mem_of_containsSub_crlf hc).1
  · -- sep = "\r\n": it occurs as an infix
    subst h
    unfold detectLineEnding
    rw [if_pos]
    rw [hN]
    exact containsSub_of_append _ _ _
  · -- sep = "\r": no LF anywhere, and CR occurs
    subst h
    have hnoLF : '\n' ∉ List.intercalate (str "\r") (l :: l2 :: rest) := by
      intro hc
      rcases hmem '\n' hc with hc | ⟨x, hx, hc⟩
      · simp [str] at hc
      · exact (hno x hx).2 hc
    unfold detectLineEnding
    rw [if_neg, if_pos]
    · rw [str_cr_eq, containsSub_single_iff]
      rw [str_cr_eq] at hN
      rw [hN]
      refine List.mem_append.mpr (Or.inr ?_)
      exact List.mem_append.mpr (Or.inl (by simp))
    · intro hc
      exact hnoLF (mem_of_containsSub_crlf hc).2

lemma sepOf_pos {cfg : WhitespaceConfig} {s : Str}
    (h : tb cfg.preserveLineEndings = true) :
    sepOf cfg s = detectLineEnding s := by
  unfold sepOf
  rw [if_pos h]

lemma sepOf_neg {cfg : WhitespaceConfig} {s : Str}
    (h : ¬tb cfg.preserveLineEndings = true) :
    sepOf cfg s = strOr cfg.defaultLineEnding (str "\n") := by
  unfold sepOf
  rw [if_neg h]

lemma normalizeContent_normalized (content : Str) (cfg : WhitespaceConfig) :
    (normalizeContent content cfg).normalized =
      List.intercalate (sepOf cfg content)
        ((splitLinesCRLF content).map (processLine cfg)) := rfl

lemma normalizeContent_hash (content : Str) (cfg : WhitespaceConfig) :
    (normalizeContent content cfg).hash =
      base64 (utf8Bytes (normalizeContent content cfg).normalized) := rfl

/-- **C6 (counterexample).** The claim quantifies over every
`WhitespaceConfig`, but `defaultIndentation` is an arbitrary string.  With
`preserveIndentation: false` and `defaultIndentation: " x"`, normalizing
`" a"` yields `" xa"`, and normalizing that again yields `" xxa"`: the
second pass is not a fixed point. -/
theorem claim6_counterexample :
    (normalizeContent
        (normalizeContent (str " a")
          { preserveIndentation := some false,
            defaultIndentation := some (str " x") }).normalized
        { preserveIndentation := some false,
          defaultIndentation := some (str " x") }).normalized ≠
      (normalizeContent (str " a")
        { preserveIndentation := some false,
          defaultIndentation := some (str " x") }).normalized := by
  decide

/-- **C6 (amended).** Normalization is a fixed point — the second pass
returns an identical normalized text and an identical hash — provided the
effective default indentation consists of spaces and tabs (whenever
`preserveIndentation` is falsy) and the effective default line ending is
one of `\n`, `\r\n`, `\r` (whenever `preserveLineEndings` is falsy).  The
default configuration preserves both, so the hypotheses hold there; the
counterexample shows the unrestricted claim is false. -/
theorem claim6_normalize_idempotent (content : Str) (cfg : WhitespaceConfig)
    (hI : tb cfg.preserveIndentation = true ∨
      ∀ ch ∈ strOr cfg.defaultIndentation (str "    "), isST ch = true)
    (hE : tb cfg.preserveLineEndings = true ∨
      strOr cfg.defaultLineEnding (str "\n") = str "\n" ∨
      strOr cfg.defaultLineEnding (str "\n") = str "\r\n" ∨
      strOr cfg.defaultLineEnding (str "\n") = str "\r") :
    (normalizeContent (normalizeContent content cfg).normalized cfg).normalized =
      (normalizeContent content cfg).normalized ∧
    (normalizeContent (normalizeContent content cfg).normalized cfg).hash =
      (normalizeContent content cfg).hash := by
  have hPne : (splitLinesCRLF content).map (processLine cfg) ≠ [] := by
    simp [splitLinesCRLF_ne_nil content]
  have hPno : ∀ l ∈ (splitLinesCRLF content).map (processLine cfg), noCRLF l := by
    intro l hl
    obtain ⟨l0, hl0, rfl⟩ := List.mem_map.mp hl
    exact noCRLF_processLine cfg hI (splitLinesCRLF_noCRLF content l0 hl0)
  have hsep3 : sepOf cfg content = str "\n" ∨ sepOf cfg content = str "\r\n" ∨
      sepOf cfg content = str "\r" := by
    by_cases hple : tb cfg.preserveLineEndings = true
    · rw [sepOf_pos hple]
      exact detectLineEnding_mem_three content
    · rw [sepOf_neg hple]
      rcases hE with hE | hE
      · exact absurd hE hple
      · exact hE
  have hmain :
      (normalizeContent (normalizeContent content cfg).normalized cfg).normalized =
        (normalizeContent content cfg).normalized := by
    rw [normalizeContent_normalized content cfg,
      normalizeContent_normalized _ cfg]
    have hsplit2 := splitLines_intercalate hsep3
      ((splitLinesCRLF content).map (processLine cfg)) hPne hPno
    rw [hsplit2]
    have hmap2 : ((splitLinesCRLF content).map (processLine cfg)).map (processLine cfg) =
        (splitLinesCRLF content).map (processLine cfg) := by
      have hcongr : ∀ l ∈ (splitLinesCRLF content).map (processLine cfg),
          processLine cfg l = l := by
        intro l hl
        obtain ⟨l0, hl0, rfl⟩ := List.mem_map.mp hl
        exact processLine_idem cfg hI l0
      calc ((splitLinesCRLF content).map (processLine cfg)).map (processLine cfg)
          = ((splitLinesCRLF content).map (processLine cfg)).map id :=
            List.map_congr_left hcongr
        _ = (splitLinesCRLF content).map (processLine cfg) := List.map_id _
    rw [hmap2]
    obtain ⟨p0, ps, hPc⟩ : ∃ p0 ps,
        (splitLinesCRLF content).map (processLine cfg) = p0 :: ps := by
      rcases h : (splitLinesCRLF content).map (processLine cfg) with _ | ⟨a, as⟩
      · exact absurd h hPne
      · exact ⟨a, as, rfl⟩
    rw [hPc]
    rcases ps with _ | ⟨p1, ps'⟩
    · rw [intercalate_singleton, intercalate_singleton]
    · rw [hPc] at hPno
      by_cases hple : tb cfg.preserveLineEndings = true
      · have hdet := detect_intercalate_of_sep hsep3 p0 p1 ps' hPno
        rw [sepOf_pos hple, hdet]
      · rw [sepOf_neg hple, sepOf_neg hple]
  refine ⟨hmain, ?_⟩
  rw [normalizeContent_hash _ cfg, normalizeContent_hash content cfg, hmain]

/-- Witness for `claim6_normalize_idempotent` at the default configuration
and the content `"foo \n  bar\r\nbaz"`. -/
theorem claim6_normalize_idempotent_witness :
    (tb DEFAULT_WHITESPACE_CONFIG.preserveIndentation = true ∨
      ∀ ch ∈ strOr DEFAULT_WHITESPACE_CONFIG.defaultIndentation (str "    "),
        isST ch = true) ∧
    (tb DEFAULT_WHITESPACE_CONFIG.preserveLineEndings = true ∨
      strOr DEFAULT_WHITESPACE_CONFIG.defaultLineEnding (str "\n") = str "\n" ∨
      strOr DEFAULT_WHITESPACE_CONFIG.defaultLineEnding (str "\n") = str "\r\n" ∨
      strOr DEFAULT_WHITESPACE_CONFIG.defaultLineEnding (str "\n") = str "\r") ∧
    ((normalizeContent
        (normalizeContent (str "foo \n  bar\r\nbaz") DEFAULT_WHITESPACE_CONFIG).normalized
        DEFAULT_WHITESPACE_CONFIG).normalized =
      (normalizeContent (str "foo \n  bar\r\nbaz") DEFAULT_WHITESPACE_CONFIG).normalized ∧
    (normalizeContent
        (normalizeContent (str "foo \n  bar\r\nbaz") DEFAULT_WHITESPACE_CONFIG).normalized
        DEFAULT_WHITESPACE_CONFIG).hash =
      (normalizeContent (str "foo \n  bar\r\nbaz") DEFAULT_WHITESPACE_CONFIG).hash) :=
  ⟨Or.inl (by decide), Or.inl (by decide),
    claim6_normalize_idempotent (str "foo \n  bar\r\nbaz") DEFAULT_WHITESPACE_CONFIG
      (Or.inl (by decide)) (Or.inl (by decide))⟩

/-! ## Lemmas about the file-system model and the pipeline stages -/

theorem fsLookup_write_self (fs : FS) (p : String) (c : Str) :
    fsLookup (fsWrite fs p c) p = some c := by
  simp [fsWrite, fsLookup]

theorem fsLookup_delete_other (fs : FS) (p q : String) (h : p ≠ q) :
    fsLookup (fsDelete fs p) q = fsLookup fs q := by
  induction fs with
  | nil => rfl
  | cons e rest ih =>
    by_cases hep : e.1 = p
    · have hq : (e.1 == q) = false := beq_eq_false_iff_ne.mpr (by rw [hep]; exact h)
      have h1 : fsDelete (e :: rest) p = fsDelete rest p := by
        simp [fsDelete, List.filter_cons, hep]
      have h2 : fsLookup (e :: rest) q = fsLookup rest q := by
        rw [fsLookup, List.find?_cons_of_neg _ (by simp [hq])]
        rfl
      rw [h1, h2, ih]
    · have h1 : fsDelete (e :: rest) p = e :: fsDelete rest p := by
        simp [fsDelete, List.filter_cons, hep]
      rw [h1]
      by_cases heq : e.1 = q
      · rw [fsLookup, List.find?_cons_of_pos _ (by simp [heq]),
          fsLookup, List.find?_cons_of_pos _ (by simp [heq])]
      · rw [fsLookup, List.find?_cons_of_neg _ (by simp [heq]),
          fsLookup, List.find?_cons_of_neg _ (by simp [heq])]
        exact ih

theorem fsLookup_write_other (fs : FS) (p q : String) (c : Str) (h : p ≠ q) :
    fsLookup (fsWrite fs p c) q = fsLookup fs q := by
  simp only [fsWrite, fsLookup, List.find?, show (p == q) = false by simp [h]]
  simpa [fsLookup] using fsLookup_delete_other fs p q h

theorem fsLookup_delete_self (fs : FS) (p : String) :
    fsLookup (fsDelete fs p) p = none := by
  induction fs with
  | nil => rfl
  | cons e rest ih =>
    by_cases he : e.1 = p
    · simpa [fsDelete, fsLookup, he] using ih
    · simp only [fsDelete, fsLookup, List.filter, show (e.1 == p) = false by simp [he],
        Bool.not_false, List.find?]
      simpa [fsDelete, fsLookup] using ih

/-- A path is never equal to its backup path. -/
theorem bak_ne (p : String) : p ++ ".bak" ≠ p := by
  intro h
  have hlen := congrArg (fun s => s.data.length) h
  simp only [String.data_append, List.length_append] at hlen
  simp [String.data] at hlen

theorem commitS_none (fs : FS) : commitS ⟨none, none⟩ fs = (.ok (), fs) := rfl

theorem rollbackS_none (fs : FS) : rollbackS ⟨none, none⟩ fs = (.ok (), fs) := rfl

theorem hctx_nobackup (op : PatchOperation) (fs : FS) (hb : tb op.createBackup = false) :
    createAtomicContextS op fs = (.ok ⟨none, none⟩, fs) := by
  unfold createAtomicContextS
  rw [hb]
  simp

theorem hctx_backup (op : PatchOperation) (fs : FS) (c : Str)
    (hb : tb op.createBackup = true) (hc : fsLookup fs op.filePath = some c) :
    createAtomicContextS op fs =
      (.ok ⟨some (op.filePath ++ ".bak"), some op.filePath⟩,
        fsWrite fs (op.filePath ++ ".bak") c) := by
  unfold createAtomicContextS createBackupS copyFileS
  rw [hb, hc]
  simp

theorem hctx_backup_missing (op : PatchOperation) (fs : FS)
    (hb : tb op.createBackup = true) (hc : fsLookup fs op.filePath = none) :
    createAtomicContextS op fs =
      (.error ("Failed to create backup: " ++ ("Failed to copy file: " ++ nodeNoEnt op.filePath)),
        fs) := by
  unfold createAtomicContextS createBackupS copyFileS
  rw [hb, hc]
  simp

theorem wp_write (op : PatchOperation) (ctx : AtomicContext) (nc : Str) (ch : ℕ) (fs : FS)
    (hch : 0 < ch) :
    writePhase op ctx nc ch [] fs = commitS ctx (writeFileS fs op.filePath nc) := by
  unfold writePhase
  rw [if_pos ⟨hch, rfl⟩]

theorem wp_conflict (op : PatchOperation) (ctx : AtomicContext) (nc : Str) (ch : ℕ)
    (confl : List String) (fs : FS) (hconfl : confl ≠ []) :
    writePhase op ctx nc ch confl fs = handleConflictsS ctx confl op.conflictResolution fs := by
  unfold writePhase
  rw [if_neg (by tauto), if_pos hconfl]

theorem wp_nothing (op : PatchOperation) (ctx : AtomicContext) (nc : Str) (fs : FS) :
    writePhase op ctx nc 0 [] fs = (.ok (), fs) := by
  unfold writePhase
  rw [if_neg (by simp), if_neg (by simp)]

theorem inner_ok (op : PatchOperation) (ctx : AtomicContext) (fs : FS) (c nc : Str)
    (ch : ℕ) (confl : List String)
    (hr : readFileE fs op.filePath = .ok c)
    (hd : dispatchStrategy op
      ((normalizeContent c (op.whitespaceConfig.getD DEFAULT_WHITESPACE_CONFIG)).normalized)
      (op.whitespaceConfig.getD DEFAULT_WHITESPACE_CONFIG) = .ok (nc, ch, confl))
    (hv : verifyChanges
      ((normalizeContent c (op.whitespaceConfig.getD DEFAULT_WHITESPACE_CONFIG)).normalized)
      nc op = true) :
    applyPatchInner op ctx fs =
      (match writePhase op ctx nc ch confl fs with
       | (.ok _, fs2) =>
         (.ok (successResult op ctx
           ((normalizeContent c (op.whitespaceConfig.getD DEFAULT_WHITESPACE_CONFIG)).normalized)
           nc ch confl), fs2)
       | (.error e, fs2) => (.error e, fs2)) := by
  unfold applyPatchInner
  rw [hr]
  simp only [hd, hv, if_true]

theorem inner_read_error (op : PatchOperation) (ctx : AtomicContext) (fs : FS) (e : String)
    (hr : readFileE fs op.filePath = .error e) :
    applyPatchInner op ctx fs = (.error e, fs) := by
  unfold applyPatchInner
  rw [hr]

theorem inner_dispatch_error (op : PatchOperation) (ctx : AtomicContext) (fs : FS)
    (c : Str) (e : String)
    (hr : readFileE fs op.filePath = .ok c)
    (hd : dispatchStrategy op
      ((normalizeContent c (op.whitespaceConfig.getD DEFAULT_WHITESPACE_CONFIG)).normalized)
      (op.whitespaceConfig.getD DEFAULT_WHITESPACE_CONFIG) = .error e) :
    applyPatchInner op ctx fs = (.error e, fs) := by
  unfold applyPatchInner
  rw [hr]
  simp only [hd]

theorem inner_verify_error (op : PatchOperation) (ctx : AtomicContext) (fs : FS)
    (c nc : Str) (ch : ℕ) (confl : List String)
    (hr : readFileE fs op.filePath = .ok c)
    (hd : dispatchStrategy op
      ((normalizeContent c (op.whitespaceConfig.getD DEFAULT_WHITESPACE_CONFIG)).normalized)
      (op.whitespaceConfig.getD DEFAULT_WHITESPACE_CONFIG) = .ok (nc, ch, confl))
    (hv : verifyChanges
      ((normalizeContent c (op.whitespaceConfig.getD DEFAULT_WHITESPACE_CONFIG)).normalized)
      nc op = false) :
    applyPatchInner op ctx fs = (.error "Change verification failed", fs) := by
  unfold applyPatchInner
  rw [hr]
  simp only [hd, hv]
  simp

theorem core_with_ctx (op : PatchOperation) (fs fs0 : FS) (ctx : AtomicContext)
    (hctx : createAtomicContextS op fs = (.ok ctx, fs0)) :
    applyPatchCore op fs =
      (match applyPatchInner op ctx fs0 with
       | (.ok r, fs1) => (r, fs1)
       | (.error e, fs1) =>
         match rollbackS ctx fs1 with
         | (.ok _, fs2) => (failResult op e, fs2)
         | (.error e2, fs2) => (failResult op e2, fs2)) := by
  unfold applyPatchCore
  rw [hctx]

theorem core_ctx_error (op : PatchOperation) (fs fs0 : FS) (e : String)
    (hctx : createAtomicContextS op fs = (.error e, fs0)) :
    applyPatchCore op fs = (failResult op e, fs0) := by
  unfold applyPatchCore
  rw [hctx]

/-! ## Protected-line lemmas (C4) -/

theorem protected_validate (l : Str) (h : isProtectedLine l = true) :
    (∀ r, validateLineChange l r = false) ∧ validateLineDeletion l = false := by
  unfold isProtectedLine at h
  constructor
  · intro r
    unfold validateLineChange
    rw [if_pos h]
  · unfold validateLineDeletion
    rcases Bool.or_eq_true_iff.mp h with h1 | h1 <;> simp [h1]

theorem validate_change_not_protected (l r : Str) (h : validateLineChange l r = true) :
    isProtectedLine l = false := by
  by_cases hp : isProtectedLine l
  · rw [(protected_validate l hp).1 r] at h
    exact absurd h (by simp)
  · simpa using hp

theorem validate_delete_not_protected (l : Str) (h : validateLineDeletion l = true) :
    isProtectedLine l = false := by
  by_cases hp : isProtectedLine l
  · rw [(protected_validate l hp).2] at h
    exact absurd h (by simp)
  · simpa using hp

theorem filter_set_sublist (P : Str → Bool) :
    ∀ (lines : List Str) (idx : ℕ) (r : Str), idx < lines.length →
      P (lines.getD idx []) = false →
      List.Sublist (lines.filter P) ((lines.set idx r).filter P)
  | [], idx, r, hidx, _ => by simp at hidx
  | a :: t, 0, r, _, hP => by
    simp only [List.getD_cons_zero] at hP
    simp only [List.set_cons_zero, List.filter_cons, hP]
    by_cases hr : P r
    · simp only [hr, if_true]
      exact List.Sublist.cons _ (List.Sublist.refl _)
    · simp only [hr, if_false]
      exact List.Sublist.refl _
  | a :: t, idx + 1, r, hidx, hP => by
    simp only [List.getD_cons_succ] at hP
    have hlen : idx < t.length := by simpa using hidx
    simp only [List.set_cons_succ, List.filter_cons]
    by_cases ha : P a
    · simp only [ha, if_true]
      exact List.Sublist.cons₂ _ (filter_set_sublist P t idx r hlen hP)
    · simp only [ha, if_false]
      exact filter_set_sublist P t idx r hlen hP

theorem filter_erase_eq (P : Str → Bool) :
    ∀ (lines : List Str) (idx : ℕ), idx < lines.length →
      P (lines.getD idx []) = false →
      (lines.eraseIdx idx).filter P = lines.filter P
  | [], idx, hidx, _ => by simp at hidx
  | a :: t, 0, _, hP => by
    simp only [List.getD_cons_zero] at hP
    simp [List.filter_cons, hP]
  | a :: t, idx + 1, hidx, hP => by
    simp only [List.getD_cons_succ] at hP
    have hlen : idx < t.length := by simpa using hidx
    simp only [List.eraseIdx_cons_succ, List.filter_cons,
      filter_erase_eq P t idx hlen hP]

theorem lineNumsLoop_protected (replace : Option Str) :
    ∀ (ns : List Int) (lines : List Str) (ch : ℕ) (conf : List String),
      List.Sublist (lines.filter isProtectedLine)
        (((lineNumsLoop replace ns lines ch conf).1).filter isProtectedLine)
  | [], lines, ch, conf => by
    rw [lineNumsLoop]
  | n :: ns, lines, ch, conf => by
    rw [lineNumsLoop]
    by_cases hcond : 0 < n ∧ n ≤ (lines.length : ℤ)
    · rw [if_pos hcond]
      have hidx : (n - 1).toNat < lines.length := by omega
      rcases replace with _ | r
      · dsimp only
        by_cases hval : validateLineDeletion (lines.getD (n - 1).toNat []) = true
        · rw [if_pos hval,
            ← filter_erase_eq isProtectedLine lines _ hidx
              (validate_delete_not_protected _ hval)]
          exact lineNumsLoop_protected none ns _ _ _
        · rw [if_neg hval]
          exact lineNumsLoop_protected none ns lines ch _
      · dsimp only
        by_cases hval : validateLineChange (lines.getD (n - 1).toNat []) r = true
        · rw [if_pos hval]
          exact (filter_set_sublist isProtectedLine lines _ r hidx
            (validate_change_not_protected _ r hval)).trans
            (lineNumsLoop_protected (some r) ns _ _ _)
        · rw [if_neg hval]
          exact lineNumsLoop_protected (some r) ns lines ch _
    · rw [if_neg hcond]
      exact lineNumsLoop_protected replace ns lines ch conf

theorem patternLoop_protected (config : WhitespaceConfig) (pattern : RegExpM)
    (replace : Option Str) (lines : List Str) (i ch : ℕ) (conf : List String) :
    List.Sublist (lines.filter isProtectedLine)
      (((patternLoop config pattern replace lines i ch conf).1).filter isProtectedLine) := by
  rw [patternLoop]
  by_cases h : i < lines.length
  · rw [dif_pos h]
    dsimp only
    by_cases hmatch :
        matchesWithTokens (normalizeContent (lines.getD i []) config).normalized pattern = true
    · rw [if_pos hmatch]
      rcases replace with _ | r
      · dsimp only
        by_cases hval : validateLineDeletion (lines.getD i []) = true
        · rw [if_pos hval,
            ← filter_erase_eq isProtectedLine lines i h
              (validate_delete_not_protected _ hval)]
          exact patternLoop_protected config pattern none (lines.eraseIdx i) i (ch + 1) conf
        · rw [if_neg hval]
          exact patternLoop_protected config pattern none lines (i + 1) ch _
      · dsimp only
        by_cases hval : validateLineChange (lines.getD i []) r = true
        · rw [if_pos hval]
          exact (filter_set_sublist isProtectedLine lines i r h
            (validate_change_not_protected _ r hval)).trans
            (patternLoop_protected config pattern (some r) (lines.set i r) (i + 1) (ch + 1) conf)
        · rw [if_neg hval]
          exact patternLoop_protected config pattern (some r) lines (i + 1) ch _
    · rw [if_neg hmatch]
      exact patternLoop_protected config pattern replace lines (i + 1) ch conf
  · rw [dif_neg h]
termination_by lines.length - i
decreasing_by
  all_goals simp [List.length_set, List.length_eraseIdx, *]
  all_goals omega

theorem lineNumsLoop_protected_conflict (replace : Option Str) (n : Int) (ns : List Int)
    (lines : List Str) (ch : ℕ) (conf : List String)
    (h1 : 0 < n) (h2 : n ≤ (lines.length : ℤ))
    (hp : isProtectedLine (lines.getD (n - 1).toNat []) = true) :
    ∃ msg, lineNumsLoop replace (n :: ns) lines ch conf =
      lineNumsLoop replace ns lines ch (conf ++ [msg]) := by
  rcases hrep : replace with _ | r
  · refine ⟨"Line " ++ toString n ++ ": Cannot delete protected line", ?_⟩
    rw [lineNumsLoop, if_pos ⟨h1, h2⟩]
    simp only [(protected_validate _ hp).2, Bool.false_eq_true, if_false]
  · refine ⟨"Line " ++ toString n ++ ": Invalid change detected", ?_⟩
    rw [lineNumsLoop, if_pos ⟨h1, h2⟩]
    simp only [(protected_validate _ hp).1 r, Bool.false_eq_true, if_false]

/-! ## C1: conflict-resolution policy -/

/-- **C1 (counterexample).** In a conflicting line deletion with
`conflictResolution = "revert"` the returned result has `success = true`
(the claim says `false`); with `"force"` the file system is left
untouched — the best-effort new content (which differs from the file's
content) is never committed (the claim says it is). -/
theorem claim1_counterexample :
    (applyPatchCore opRev fsC1).1.success = true ∧
    (applyPatchCore opRev fsC1).1.conflicts = some ["Line 2: Cannot delete protected line"] ∧
    (applyPatchCore opForce fsC1).2 = fsC1 ∧
    (applyPatchCore opForce fsC1).1.success = true ∧
    (applyPatchCore opForce fsC1).1.newContent = some [str "bar TODO", str "baz", []] ∧
    fsLookup fsC1 "f" ≠ some (str "bar TODO\nbaz\n") := by
  decide

/-- **C1 (amended).** For every operation without backup whose strategy
run succeeds with a non-empty conflict list and passes verification:
`revert` rolls back and returns the `success = true` result (not
`success = false`); `force` commits (deleting only the backup) but never
writes the merged content, also returning `success = true` with the
non-empty `conflicts` array; the default (`manual` or absent) resolution
rolls back and returns `success = false` with the conflicts rendered
into the `error` string.  In all three cases the file system is
unchanged. -/
theorem claim1_conflict_policy (op : PatchOperation) (fs : FS) (c nc : Str)
    (ch : ℕ) (confl : List String)
    (hb : tb op.createBackup = false)
    (hr : readFileE fs op.filePath = .ok c)
    (hd : dispatchStrategy op
      ((normalizeContent c (op.whitespaceConfig.getD DEFAULT_WHITESPACE_CONFIG)).normalized)
      (op.whitespaceConfig.getD DEFAULT_WHITESPACE_CONFIG) = .ok (nc, ch, confl))
    (hv : verifyChanges
      ((normalizeContent c (op.whitespaceConfig.getD DEFAULT_WHITESPACE_CONFIG)).normalized)
      nc op = true)
    (hconfl : confl ≠ []) :
    (op.conflictResolution = some .revert →
      applyPatchCore op fs =
        (successResult op ⟨none, none⟩
          ((normalizeContent c (op.whitespaceConfig.getD DEFAULT_WHITESPACE_CONFIG)).normalized)
          nc ch confl, fs)) ∧
    (op.conflictResolution = some .force →
      applyPatchCore op fs =
        (successResult op ⟨none, none⟩
          ((normalizeContent c (op.whitespaceConfig.getD DEFAULT_WHITESPACE_CONFIG)).normalized)
          nc ch confl, fs)) ∧
    ((op.conflictResolution = none ∨ op.conflictResolution = some .manual) →
      applyPatchCore op fs =
        (failResult op ("Unresolved conflicts: " ++ String.intercalate ", " confl), fs)) ∧
    (successResult op ⟨none, none⟩
      ((normalizeContent c (op.whitespaceConfig.getD DEFAULT_WHITESPACE_CONFIG)).normalized)
      nc ch confl).success = true ∧
    (successResult op ⟨none, none⟩
      ((normalizeContent c (op.whitespaceConfig.getD DEFAULT_WHITESPACE_CONFIG)).normalized)
      nc ch confl).conflicts = some confl := by
  have hcore := core_with_ctx op fs fs ⟨none, none⟩ (hctx_nobackup op fs hb)
  have hinner := inner_ok op ⟨none, none⟩ fs c nc ch confl hr hd hv
  have hwp := wp_conflict op ⟨none, none⟩ nc ch confl fs hconfl
  refine ⟨?_, ?_, ?_, rfl, ?_⟩
  · intro hres
    rw [hcore, hinner, hwp, hres]
    rfl
  · intro hres
    rw [hcore, hinner, hwp, hres]
    rfl
  · intro hres
    rcases hres with hres | hres <;> rw [hcore, hinner, hwp, hres] <;> rfl
  · simp [successResult, List.length_pos, hconfl]

/-- Witness for `claim1_conflict_policy`, instantiated at the C1
scenario with `conflictResolution = "revert"`. -/
theorem claim1_conflict_policy_witness :
    applyPatchCore opRev fsC1 =
      (successResult opRev ⟨none, none⟩ (str "foo\nbar TODO\nbaz\n") (str "bar TODO\nbaz\n")
        1 ["Line 2: Cannot delete protected line"], fsC1) :=
  (claim1_conflict_policy opRev fsC1 (str "foo\nbar TODO\nbaz\n") (str "bar TODO\nbaz\n")
    1 ["Line 2: Cannot delete protected line"] (by decide) (by decide) (by decide) (by decide)
    (by decide)).1 rfl

/-! ## C7: the concrete line/search/replace scenario -/

theorem c7_match_foo : matchesWithTokens ['f', 'o', 'o'] ⟨['b', 'a', 'r']⟩ = false := by
  simp [matchesWithTokens, calculateSimilarity, tokenize, classOf, isJsSpace, isWordChar,
    levMatrix, SIMILARITY_THRESHOLD]
  norm_num

theorem c7_match_bar : matchesWithTokens ['b', 'a', 'r'] ⟨['b', 'a', 'r']⟩ = true := by
  simp [matchesWithTokens, calculateSimilarity, tokenize, classOf, isJsSpace, isWordChar,
    levMatrix, SIMILARITY_THRESHOLD]
  norm_num

theorem c7_match_nil : matchesWithTokens [] ⟨['b', 'a', 'r']⟩ = false := by
  simp [matchesWithTokens, calculateSimilarity, tokenize, classOf, isJsSpace, isWordChar,
    levMatrix, SIMILARITY_THRESHOLD]
  norm_num

set_option maxHeartbeats 4000000 in
theorem c7_pattern : createTokenPattern ['b', 'a', 'r'] DEFAULT_WHITESPACE_CONFIG
    = ⟨['b', 'a', 'r']⟩ := by
  simp [createTokenPattern, tokenize, classOf, isJsSpace, isWordChar, escapeRegex,
    isRegexSpecial, tb, DEFAULT_WHITESPACE_CONFIG, replaceWsRuns]

theorem c7_loop : patternLoop DEFAULT_WHITESPACE_CONFIG ⟨['b', 'a', 'r']⟩ (some ['b', 'a', 'z'])
    [['f', 'o', 'o'], ['b', 'a', 'r'], []] 0 0 []
    = ([['f', 'o', 'o'], ['b', 'a', 'z'], []], 1, []) := by
  rw [patternLoop]
  norm_num [show (normalizeContent ['f', 'o', 'o'] DEFAULT_WHITESPACE_CONFIG).normalized
    = ['f', 'o', 'o'] from by decide, c7_match_foo]
  rw [patternLoop]
  norm_num [show (normalizeContent ['b', 'a', 'r'] DEFAULT_WHITESPACE_CONFIG).normalized
    = ['b', 'a', 'r'] from by decide, c7_match_bar,
    show validateLineChange ['b', 'a', 'r'] ['b', 'a', 'z'] = true from by decide]
  rw [patternLoop]
  norm_num [show (normalizeContent [] DEFAULT_WHITESPACE_CONFIG).normalized = [] from by decide,
    c7_match_nil]
  rw [patternLoop]
  norm_num

theorem c7_line : handleLineOperation (str "foo\nbar\n") op7 DEFAULT_WHITESPACE_CONFIG
    = .ok (str "foo\nbaz\n", 1, []) := by
  have e1 : str "bar" = ['b', 'a', 'r'] := rfl
  have e2 : str "baz" = ['b', 'a', 'z'] := rfl
  have hsplit : splitNl (str "foo\nbar\n") = [['f', 'o', 'o'], ['b', 'a', 'r'], []] := by decide
  simp only [handleLineOperation, op7, e1, e2, hsplit, Option.getD_some, Option.isSome_none,
    Option.isSome_some, strTruthy, c7_pattern, c7_loop]
  decide

/-- **C7.** On the file containing exactly `"foo\nbar\n"`, the operation
`{type: "line", search: "bar", replace: "baz"}` (default configuration)
returns a successful result: file content becomes `"foo\nbaz\n"`, one
change applied, no conflicts, no error. -/
theorem claim7_line_search_replace :
    applyPatchCore op7 fs7 =
      ({ success := true, filePath := "f", type := .line, changesApplied := 1,
         backupPath := none, originalContent := some [str "foo", str "bar", []],
         newContent := some [str "foo", str "baz", []], error := none, conflicts := none },
        [("f", str "foo\nbaz\n")]) := by
  have hdisp : dispatchStrategy op7 (str "foo\nbar\n") DEFAULT_WHITESPACE_CONFIG
      = .ok (str "foo\nbaz\n", 1, []) :=
    (show dispatchStrategy op7 (str "foo\nbar\n") DEFAULT_WHITESPACE_CONFIG
      = handleLineOperation (str "foo\nbar\n") op7 DEFAULT_WHITESPACE_CONFIG from rfl).trans c7_line
  rw [core_with_ctx op7 fs7 fs7 ⟨none, none⟩ (hctx_nobackup op7 fs7 rfl)]
  rw [inner_ok op7 ⟨none, none⟩ fs7 (str "foo\nbar\n") (str "foo\nbaz\n") 1 []
    (by decide) hdisp (by decide)]
  rw [wp_write op7 ⟨none, none⟩ (str "foo\nbaz\n") 1 fs7 Nat.one_pos, commitS_none]
  decide

/-! ## C4: protected lines -/

/-- **C4 (counterexample).** In the concrete scenario the returned
`PatchResult` has `conflicts = undefined` — not
`["Line 1: Cannot delete protected line"]` as claimed — because the
default conflict resolution turns the conflict list into a thrown
`Unresolved conflicts: …` error and the outer catch drops the list. -/
theorem claim4_counterexample :
    (applyPatchCore op4 fs4).1.conflicts = none ∧
    (applyPatchCore op4 fs4).1.conflicts ≠ some ["Line 1: Cannot delete protected line"] := by
  decide

/-- **C4 (amended).** In the concrete scenario the operation fails with
`success = false`, `changesApplied = 0`, the conflict text rendered into
`error` as `Unresolved conflicts: Line 1: Cannot delete protected line`,
`conflicts = undefined`, and the file unchanged.  In general, lines
containing `TODO` or `IMPORTANT` are protected: the validators reject
any replacement or deletion of them, neither line loop ever replaces or
deletes a protected line (the protected lines of the input survive into
the output, in order), and a line-number step that targets a protected
line only appends one conflict message, leaving the lines and the change
count untouched. -/
theorem claim4_protected_lines :
    applyPatchCore op4 fs4 =
      (failResult op4 "Unresolved conflicts: Line 1: Cannot delete protected line", fs4) ∧
    (applyPatchCore op4 fs4).1.changesApplied = 0 ∧
    fsLookup (applyPatchCore op4 fs4).2 "f" = some (str "x = 1;  // TODO fix\n") ∧
    (∀ l r : Str, isProtectedLine l = true →
      validateLineChange l r = false ∧ validateLineDeletion l = false) ∧
    (∀ (replace : Option Str) (ns : List Int) (lines : List Str) (ch : ℕ)
        (conf : List String),
      List.Sublist (lines.filter isProtectedLine)
        (((lineNumsLoop replace ns lines ch conf).1).filter isProtectedLine)) ∧
    (∀ (config : WhitespaceConfig) (pattern : RegExpM) (replace : Option Str)
        (lines : List Str) (i ch : ℕ) (conf : List String),
      List.Sublist (lines.filter isProtectedLine)
        (((patternLoop config pattern replace lines i ch conf).1).filter isProtectedLine)) ∧
    (∀ (replace : Option Str) (n : Int) (ns : List Int) (lines : List Str) (ch : ℕ)
        (conf : List String), 0 < n → n ≤ (lines.length : ℤ) →
      isProtectedLine (lines.getD (n - 1).toNat []) = true →
      ∃ msg, lineNumsLoop replace (n :: ns) lines ch conf =
        lineNumsLoop replace ns lines ch (conf ++ [msg])) :=
  ⟨by decide, by decide, by decide,
    fun l r h => ⟨(protected_validate l h).1 r, (protected_validate l h).2⟩,
    fun replace ns lines ch conf => lineNumsLoop_protected replace ns lines ch conf,
    fun config pattern replace lines i ch conf =>
      patternLoop_protected config pattern replace lines i ch conf,
    fun replace n ns lines ch conf h1 h2 hp =>
      lineNumsLoop_protected_conflict replace n ns lines ch conf h1 h2 hp⟩

/-- Witness for `claim4_protected_lines`: the validators at the concrete
protected line `"a TODO"`. -/
theorem claim4_protected_lines_witness :
    validateLineChange (str "a TODO") (str "b") = false ∧
    validateLineDeletion (str "a TODO") = false :=
  claim4_protected_lines.2.2.2.1 (str "a TODO") (str "b") (by decide)

/-! ## C8: the three-way merge engine -/

/-- **C8.** For a merge strategy other than `overwrite`, complete
replacement dispatches to a three-way merge whose base is the joined
token-level LCS of the original content and the normalized replacement.
`findLCS` really computes a longest common subsequence (a common
sublist of maximal length), and the merge walks the three token streams
strictly position-by-position (all indices advance together): position
`idx` emits `mergeStep` of the three `idx`-th tokens and records the
conflict message naming `idx` exactly when the step conflicts, with the
emitted token falling back to the target token when current is
exhausted. -/
theorem claim8_smart_merge (original replacement : Str) (config : WhitespaceConfig)
    (strategy : MergeStrategy) (hs : strategy ≠ .overwrite) :
    handleCompleteReplacement original replacement config (some strategy) =
      performThreeWayMerge
        (findCommonAncestor original (normalizeContent replacement config).normalized)
        original (normalizeContent replacement config).normalized ∧
    (∀ c1 c2 : Str,
      findCommonAncestor c1 c2 = (findLCS (tokenize c1) (tokenize c2)).flatten ∧
      List.Sublist (findLCS (tokenize c1) (tokenize c2)) (tokenize c1) ∧
      List.Sublist (findLCS (tokenize c1) (tokenize c2)) (tokenize c2) ∧
      (∀ w : List Str, List.Sublist w (tokenize c1) → List.Sublist w (tokenize c2) →
        w.length ≤ (findLCS (tokenize c1) (tokenize c2)).length)) ∧
    (∀ base current target : Str,
      performThreeWayMerge base current target =
        (joinJs ((List.range' 0 (max (max (tokenize base).length (tokenize current).length)
            (tokenize target).length)).map fun idx =>
          (mergeStep ((tokenize base)[idx]?) ((tokenize current)[idx]?)
            ((tokenize target)[idx]?)).1),
         (List.range' 0 (max (max (tokenize base).length (tokenize current).length)
            (tokenize target).length)).filterMap fun idx =>
          if (mergeStep ((tokenize base)[idx]?) ((tokenize current)[idx]?)
              ((tokenize target)[idx]?)).2
          then some ("Conflict at position " ++ toString idx) else none)) ∧
    (∀ b cur tgt : Option Str,
      mergeStep b cur tgt =
        if cur = tgt then (cur, false)
        else if cur = b then (tgt, false)
        else if tgt = b then (cur, false)
        else (jsOrStr cur tgt, true)) ∧
    (∀ t : Str, jsOrStr none (some t) = some t) := by
  refine ⟨?_, ?_, ?_, fun b cur tgt => rfl, fun t => rfl⟩
  · unfold handleCompleteReplacement
    rw [if_neg]
    rintro (h | h)
    · exact Option.noConfusion h
    · exact hs (Option.some.inj h)
  · intro c1 c2
    have hfull1 : (tokenize c1).take (tokenize c1).length = tokenize c1 := by simp
    have hfull2 : (tokenize c2).take (tokenize c2).length = tokenize c2 := by simp
    have hsub := lcsWalk_sublist (tokenize c1) (tokenize c2) (tokenize c1).length
      (tokenize c2).length le_rfl le_rfl
    rw [hfull1, hfull2] at hsub
    refine ⟨rfl, hsub.1, hsub.2, fun w hw1 hw2 => ?_⟩
    have hmax := lcsLen_maximal (tokenize c1) (tokenize c2) (tokenize c1).length
      (tokenize c2).length le_rfl le_rfl w (by rw [hfull1]; exact hw1)
      (by rw [hfull2]; exact hw2)
    rw [findLCS, lcsWalk_length (tokenize c1) (tokenize c2) (tokenize c1).length
      (tokenize c2).length le_rfl le_rfl]
    exact hmax
  · intro base current target
    unfold performThreeWayMerge
    dsimp only
    rw [mergeLoop_closed (tokenize base) (tokenize current) (tokenize target) 0 [] [] rfl]
    simp only [Nat.sub_zero, List.nil_append]

/-- Witness for `claim8_smart_merge` at `strategy = merge` on one-token
contents. -/
theorem claim8_smart_merge_witness :
    handleCompleteReplacement (str "a") (str "b") DEFAULT_WHITESPACE_CONFIG (some .merge) =
      performThreeWayMerge
        (findCommonAncestor (str "a")
          (normalizeContent (str "b") DEFAULT_WHITESPACE_CONFIG).normalized)
        (str "a") (normalizeContent (str "b") DEFAULT_WHITESPACE_CONFIG).normalized :=
  (claim8_smart_merge (str "a") (str "b") DEFAULT_WHITESPACE_CONFIG .merge (by decide)).1

/-! ## C3: the error-propagation policy -/

theorem inner_shape (op : PatchOperation) (ctx : AtomicContext) (fs fs2 : FS)
    (r : PatchResult) (h : applyPatchInner op ctx fs = (.ok r, fs2)) :
    ∃ c nc ch confl, r = successResult op ctx c nc ch confl := by
  unfold applyPatchInner at h
  split at h
  · simp at h
  · dsimp only at h
    split at h
    · simp at h
    · split at h
      · split at h
        · simp only [Prod.mk.injEq] at h
          exact ⟨_, _, _, _, (Except.ok.inj h.1).symm⟩
        · simp at h
      · simp at h

theorem core_shape (op : PatchOperation) (fs : FS) :
    (∃ e, (applyPatchCore op fs).1 = failResult op e) ∨
    (∃ ctx c nc ch confl, (applyPatchCore op fs).1 = successResult op ctx c nc ch confl) := by
  unfold applyPatchCore
  split
  · exact Or.inl ⟨_, rfl⟩
  · split
    next r fs1 heq =>
      obtain ⟨c, nc, ch, confl, hr⟩ := inner_shape op _ _ fs1 r heq
      exact Or.inr ⟨_, c, nc, ch, confl, hr⟩
    next e fs1 heq =>
      split
      · exact Or.inl ⟨_, rfl⟩
      · exact Or.inl ⟨_, rfl⟩

theorem dispatch_complete_missing (op : PatchOperation) (content : Str)
    (config : WhitespaceConfig) (ht : op.type = .complete)
    (hc : strTruthy op.content = false) :
    dispatchStrategy op content config =
      .error "Content is required for complete replacement" := by
  unfold dispatchStrategy
  rw [ht]
  simp [hc]

theorem dispatch_diff_missing (op : PatchOperation) (content : Str)
    (config : WhitespaceConfig) (ht : op.type = .diff)
    (hc : strTruthy op.diff = false) :
    dispatchStrategy op content config =
      .error "Diff content is required for diff patching" := by
  unfold dispatchStrategy
  rw [ht]
  simp [hc]

theorem dispatch_block_missing (op : PatchOperation) (content : Str)
    (config : WhitespaceConfig) (ht : op.type = .block)
    (hc : strTruthy op.search = false ∨ strTruthy op.replace = false) :
    dispatchStrategy op content config =
      .error "Search and replace are required for block replacement" := by
  unfold dispatchStrategy
  rw [ht]
  rcases hc with hc | hc <;> simp [hc]

theorem dispatch_diff_unparseable (op : PatchOperation) (content : Str)
    (config : WhitespaceConfig) (m : String) (ht : op.type = .diff)
    (hc : strTruthy op.diff = true)
    (hp : parsePatchModel (op.diff.getD []) = .error m) :
    dispatchStrategy op content config =
      .error ("Failed to apply diff patch: " ++ m) := by
  unfold dispatchStrategy
  rw [ht]
  simp only [hc, Bool.not_true, Bool.false_eq_true, if_false]
  unfold handleDiffOperation
  rw [hp]

theorem core_fail_of_dispatch_error (op : PatchOperation) (fs : FS) (c : Str) (e : String)
    (hb : tb op.createBackup = false)
    (hr : readFileE fs op.filePath = .ok c)
    (hd : dispatchStrategy op
      ((normalizeContent c (op.whitespaceConfig.getD DEFAULT_WHITESPACE_CONFIG)).normalized)
      (op.whitespaceConfig.getD DEFAULT_WHITESPACE_CONFIG) = .error e) :
    applyPatchCore op fs = (failResult op e, fs) := by
  rw [core_with_ctx op fs fs ⟨none, none⟩ (hctx_nobackup op fs hb),
    inner_dispatch_error op ⟨none, none⟩ fs c e hr hd]
  rfl

/-- **C3.** `applyPatch` never raises: it always returns a `PatchResult`;
every `success = false` result carries `changesApplied = 0` and an error
message, and every `success = true` result has no error.  Missing
required fields (`content` for `complete`, `diff` for `diff`, `search`/
`replace` for `block`), an unparseable diff (in the model of the external
`diff` library), and a failing backup each produce exactly the
corresponding `success = false` result, leaving the file system
untouched. -/
theorem claim3_error_policy :
    (∀ (op : PatchOperation) (fs : FS), ∃ r fs2, applyPatchCore op fs = (r, fs2)) ∧
    (∀ (op : PatchOperation) (fs : FS),
      ((applyPatchCore op fs).1.success = false →
        (applyPatchCore op fs).1.changesApplied = 0 ∧
        (applyPatchCore op fs).1.error.isSome = true) ∧
      ((applyPatchCore op fs).1.success = true → (applyPatchCore op fs).1.error = none)) ∧
    (∀ (op : PatchOperation) (fs : FS) (c : Str),
      tb op.createBackup = false → readFileE fs op.filePath = .ok c →
      (op.type = .complete → strTruthy op.content = false →
        applyPatchCore op fs =
          (failResult op "Content is required for complete replacement", fs)) ∧
      (op.type = .diff → strTruthy op.diff = false →
        applyPatchCore op fs =
          (failResult op "Diff content is required for diff patching", fs)) ∧
      (op.type = .block → (strTruthy op.search = false ∨ strTruthy op.replace = false) →
        applyPatchCore op fs =
          (failResult op "Search and replace are required for block replacement", fs)) ∧
      (∀ m, op.type = .diff → strTruthy op.diff = true →
        parsePatchModel (op.diff.getD []) = .error m →
        applyPatchCore op fs =
          (failResult op ("Failed to apply diff patch: " ++ m), fs))) ∧
    (∀ (op : PatchOperation) (fs : FS),
      tb op.createBackup = true → fsLookup fs op.filePath = none →
      applyPatchCore op fs =
        (failResult op ("Failed to create backup: " ++
          ("Failed to copy file: " ++ nodeNoEnt op.filePath)), fs)) := by
  refine ⟨fun op fs => ⟨_, _, rfl⟩, fun op fs => ?_, fun op fs c hb hr => ?_, fun op fs hb hc => ?_⟩
  · rcases core_shape op fs with ⟨e, he⟩ | ⟨ctx, c, nc, ch, confl, he⟩
    · constructor
      · intro _
        rw [he]
        exact ⟨rfl, rfl⟩
      · intro hs
        rw [he] at hs
        simp [failResult] at hs
    · constructor
      · intro hs
        rw [he] at hs
        simp [successResult] at hs
      · intro _
        rw [he]
        rfl
  · refine ⟨fun ht hc => ?_, fun ht hc => ?_, fun ht hc => ?_, fun m ht hc hp => ?_⟩
    · exact core_fail_of_dispatch_error op fs c _ hb hr
        (dispatch_complete_missing op _ _ ht hc)
    · exact core_fail_of_dispatch_error op fs c _ hb hr
        (dispatch_diff_missing op _ _ ht hc)
    · exact core_fail_of_dispatch_error op fs c _ hb hr
        (dispatch_block_missing op _ _ ht hc)
    · exact core_fail_of_dispatch_error op fs c _ hb hr
        (dispatch_diff_unparseable op _ _ m ht hc hp)
  · exact core_ctx_error op fs fs _ (hctx_backup_missing op fs hb hc)

/-- Witness for `claim3_error_policy`: the `complete`-without-`content`
case at a concrete operation. -/
theorem claim3_error_policy_witness :
    applyPatchCore opC3 fsC3 =
      (failResult opC3 "Content is required for complete replacement", fsC3) :=
  (claim3_error_policy.2.2.1 opC3 fsC3 (str "x") (by decide) (by decide)).1 rfl (by decide)

/-! ## C2: the write gate and rollback invariant -/

theorem commitS_backup (bp : String) (tp : Option String) (X : FS) (c0 : Str)
    (h : fsLookup X bp = some c0) :
    commitS ⟨some bp, tp⟩ X = (.ok (), fsDelete X bp) := by
  unfold commitS deleteFileS
  dsimp only
  rw [h]
  simp

theorem rollbackS_backup (bp tp : String) (X : FS) (c0 : Str)
    (hne : bp ≠ tp) (h : fsLookup X bp = some c0) :
    rollbackS ⟨some bp, some tp⟩ X = (.ok (), fsDelete (fsWrite X tp c0) bp) := by
  unfold rollbackS restoreFromBackupS copyFileS deleteFileS
  dsimp only
  rw [h]
  have h2 : fsLookup (fsWrite X tp c0) bp = some c0 := by
    rw [fsLookup_write_other X tp bp c0 hne.symm]
    exact h
  simp [h2]

theorem rollbackS_backup_missing (bp tp : String) (X : FS)
    (h : fsLookup X bp = none) :
    rollbackS ⟨some bp, some tp⟩ X =
      (.error ("Failed to restore from backup: " ++
        ("Failed to copy file: " ++ nodeNoEnt bp)), X) := by
  unfold rollbackS restoreFromBackupS copyFileS
  dsimp only
  rw [h]

theorem handleConflictsS_default_backup (bp tp : String) (X : FS) (c0 : Str)
    (confl : List String) (res : Option ConflictResolution)
    (hres : res = none ∨ res = some .manual)
    (hne : bp ≠ tp) (h : fsLookup X bp = some c0) :
    handleConflictsS ⟨some bp, some tp⟩ confl res X =
      (.error ("Unresolved conflicts: " ++ String.intercalate ", " confl),
        fsDelete (fsWrite X tp c0) bp) := by
  rcases hres with h' | h' <;> subst h' <;>
    · unfold handleConflictsS
      rw [rollbackS_backup bp tp X c0 hne h]

theorem core_inner_ok (op : PatchOperation) (fs fs0 fs1 : FS) (ctx : AtomicContext)
    (r : PatchResult)
    (hctx : createAtomicContextS op fs = (.ok ctx, fs0))
    (hi : applyPatchInner op ctx fs0 = (.ok r, fs1)) :
    applyPatchCore op fs = (r, fs1) := by
  unfold applyPatchCore
  simp only [hctx, hi]

theorem core_inner_error (op : PatchOperation) (fs fs0 fs1 fs2 : FS) (ctx : AtomicContext)
    (e : String)
    (hctx : createAtomicContextS op fs = (.ok ctx, fs0))
    (hi : applyPatchInner op ctx fs0 = (.error e, fs1))
    (hrb : rollbackS ctx fs1 = (.ok (), fs2)) :
    applyPatchCore op fs = (failResult op e, fs2) := by
  unfold applyPatchCore
  simp only [hctx, hi, hrb]

theorem core_inner_error_rbfail (op : PatchOperation) (fs fs0 fs1 fs2 : FS)
    (ctx : AtomicContext) (e e2 : String)
    (hctx : createAtomicContextS op fs = (.ok ctx, fs0))
    (hi : applyPatchInner op ctx fs0 = (.error e, fs1))
    (hrb : rollbackS ctx fs1 = (.error e2, fs2)) :
    applyPatchCore op fs = (failResult op e2, fs2) := by
  unfold applyPatchCore
  simp only [hctx, hi, hrb]

theorem inner_none_cases (op : PatchOperation) (fs : FS) :
    (∃ e, applyPatchInner op ⟨none, none⟩ fs = (.error e, fs)) ∨
    (∃ c nc ch confl, applyPatchInner op ⟨none, none⟩ fs =
      (.ok (successResult op ⟨none, none⟩ c nc ch confl), fs)) ∨
    (∃ c nc ch, 0 < ch ∧ applyPatchInner op ⟨none, none⟩ fs =
      (.ok (successResult op ⟨none, none⟩ c nc ch []), fsWrite fs op.filePath nc)) := by
  unfold applyPatchInner
  split
  · exact Or.inl ⟨_, rfl⟩
  next fileContent heq =>
    dsimp only
    split
    · exact Or.inl ⟨_, rfl⟩
    next nc ch confl heq2 =>
      split
      next hv =>
        by_cases hch : 0 < ch ∧ confl = []
        · obtain ⟨hch1, hch2⟩ := hch
          subst hch2
          rw [wp_write op ⟨none, none⟩ nc ch fs hch1, commitS_none]
          exact Or.inr (Or.inr ⟨_, nc, ch, hch1, rfl⟩)
        · by_cases hcf : confl = []
          · subst hcf
            have hch0 : ch = 0 := by
              simp at hch
              omega
            subst hch0
            rw [wp_nothing]
            exact Or.inr (Or.inl ⟨_, nc, 0, [], rfl⟩)
          · rw [wp_conflict op ⟨none, none⟩ nc ch confl fs hcf]
            rcases hres : op.conflictResolution with _ | cr
            · exact Or.inl ⟨_, rfl⟩
            · cases cr
              · exact Or.inr (Or.inl ⟨_, nc, ch, confl, rfl⟩)
              · exact Or.inr (Or.inl ⟨_, nc, ch, confl, rfl⟩)
              · exact Or.inl ⟨_, rfl⟩
      next hv =>
        exact Or.inl ⟨_, rfl⟩

theorem inner_backup_cases (op : PatchOperation) (fs0 : FS) (bp : String) (c0 : Str)
    (hne : bp ≠ op.filePath)
    (hbc : fsLookup fs0 bp = some c0) :
    (∃ e, applyPatchInner op ⟨some bp, some op.filePath⟩ fs0 = (.error e, fs0)) ∨
    (∃ e, applyPatchInner op ⟨some bp, some op.filePath⟩ fs0 =
      (.error e, fsDelete (fsWrite fs0 op.filePath c0) bp)) ∨
    (∃ c nc ch confl, applyPatchInner op ⟨some bp, some op.filePath⟩ fs0 =
      (.ok (successResult op ⟨some bp, some op.filePath⟩ c nc ch confl), fsDelete fs0 bp)) ∨
    (∃ c nc ch confl, applyPatchInner op ⟨some bp, some op.filePath⟩ fs0 =
      (.ok (successResult op ⟨some bp, some op.filePath⟩ c nc ch confl),
        fsDelete (fsWrite fs0 op.filePath c0) bp)) ∨
    (∃ c nc ch confl, applyPatchInner op ⟨some bp, some op.filePath⟩ fs0 =
      (.ok (successResult op ⟨some bp, some op.filePath⟩ c nc ch confl), fs0)) ∨
    (∃ c nc ch, 0 < ch ∧ applyPatchInner op ⟨some bp, some op.filePath⟩ fs0 =
      (.ok (successResult op ⟨some bp, some op.filePath⟩ c nc ch []),
        fsDelete (fsWrite fs0 op.filePath nc) bp)) := by
  unfold applyPatchInner
  split
  · exact Or.inl ⟨_, rfl⟩
  next fileContent heq =>
    dsimp only
    split
    · exact Or.inl ⟨_, rfl⟩
    next nc ch confl heq2 =>
      split
      next hv =>
        by_cases hch : 0 < ch ∧ confl = []
        · obtain ⟨hch1, hch2⟩ := hch
          subst hch2
          rw [wp_write op ⟨some bp, some op.filePath⟩ nc ch fs0 hch1,
            commitS_backup bp (some op.filePath) (writeFileS fs0 op.filePath nc) c0
              (by unfold writeFileS; rw [fsLookup_write_other fs0 op.filePath bp nc hne.symm]; exact hbc)]
          exact Or.inr (Or.inr (Or.inr (Or.inr (Or.inr ⟨_, nc, ch, hch1, rfl⟩))))
        · by_cases hcf : confl = []
          · subst hcf
            have hch0 : ch = 0 := by
              simp at hch
              omega
            subst hch0
            rw [wp_nothing]
            exact Or.inr (Or.inr (Or.inr (Or.inr (Or.inl ⟨_, nc, 0, [], rfl⟩))))
          · rw [wp_conflict op ⟨some bp, some op.filePath⟩ nc ch confl fs0 hcf]
            rcases hres : op.conflictResolution with _ | cr
            · rw [handleConflictsS_default_backup bp op.filePath fs0 c0 confl none
                (Or.inl rfl) hne hbc]
              exact Or.inr (Or.inl ⟨_, rfl⟩)
            · cases cr
              · rw [show handleConflictsS ⟨some bp, some op.filePath⟩ confl
                    (some .force) fs0 = commitS ⟨some bp, some op.filePath⟩ fs0 from rfl,
                  commitS_backup bp (some op.filePath) fs0 c0 hbc]
                exact Or.inr (Or.inr (Or.inl ⟨_, nc, ch, confl, rfl⟩))
              · rw [show handleConflictsS ⟨some bp, some op.filePath⟩ confl
                    (some .revert) fs0 = rollbackS ⟨some bp, some op.filePath⟩ fs0 from rfl,
                  rollbackS_backup bp op.filePath fs0 c0 hne hbc]
                exact Or.inr (Or.inr (Or.inr (Or.inl ⟨_, nc, ch, confl, rfl⟩)))
              · rw [handleConflictsS_default_backup bp op.filePath fs0 c0 confl
                  (some .manual) (Or.inr rfl) hne hbc]
                exact Or.inr (Or.inl ⟨_, rfl⟩)
      next hv =>
        exact Or.inl ⟨_, rfl⟩

/-- **C2.** The target file's on-disk content is unchanged whenever the
returned result has `success = false`, and the target file's content
changes at all only when the strategy applied at least one change with
an empty conflict list (in which case the result reports `success`,
a positive `changesApplied` and no `conflicts`). -/
theorem claim2_write_gate (op : PatchOperation) (fs : FS) :
    ((applyPatchCore op fs).1.success = false →
      fsLookup (applyPatchCore op fs).2 op.filePath = fsLookup fs op.filePath) ∧
    (fsLookup (applyPatchCore op fs).2 op.filePath ≠ fsLookup fs op.filePath →
      (applyPatchCore op fs).1.success = true ∧
      0 < (applyPatchCore op fs).1.changesApplied ∧
      (applyPatchCore op fs).1.conflicts = none) := by
  by_cases hbk : tb op.createBackup = true
  · rcases hcc : fsLookup fs op.filePath with _ | c0
    · have hfin := core_ctx_error op fs fs _ (hctx_backup_missing op fs hbk hcc)
      rw [hfin]
      exact ⟨fun _ => hcc, fun hne2 => absurd hcc hne2⟩
    · have hne : (op.filePath ++ ".bak") ≠ op.filePath := bak_ne op.filePath
      have hctx := hctx_backup op fs c0 hbk hcc
      have hlbp : fsLookup (fsWrite fs (op.filePath ++ ".bak") c0) (op.filePath ++ ".bak")
          = some c0 := fsLookup_write_self fs (op.filePath ++ ".bak") c0
      have hl0 : fsLookup (fsWrite fs (op.filePath ++ ".bak") c0) op.filePath = some c0 := by
        rw [fsLookup_write_other fs (op.filePath ++ ".bak") op.filePath c0 hne, hcc]
      have hrestored : fsLookup
          (fsDelete (fsWrite (fsWrite fs (op.filePath ++ ".bak") c0) op.filePath c0)
            (op.filePath ++ ".bak")) op.filePath = some c0 := by
        rw [fsLookup_delete_other _ _ _ hne, fsLookup_write_self]
      rcases inner_backup_cases op (fsWrite fs (op.filePath ++ ".bak") c0)
          (op.filePath ++ ".bak") c0 hne hlbp with
        ⟨e, hi⟩ | ⟨e, hi⟩ | ⟨c, nc, ch, confl, hi⟩ | ⟨c, nc, ch, confl, hi⟩ |
        ⟨c, nc, ch, confl, hi⟩ | ⟨c, nc, ch, hch, hi⟩
      · have hfin := core_inner_error op fs _ _ _ _ e hctx hi
          (rollbackS_backup (op.filePath ++ ".bak") op.filePath _ c0 hne hlbp)
        rw [hfin]
        refine ⟨fun _ => ?_, fun hne2 => absurd ?_ hne2⟩ <;>
          rw [hrestored]
      · have hfin := core_inner_error_rbfail op fs _ _ _ _ e _ hctx hi
          (rollbackS_backup_missing (op.filePath ++ ".bak") op.filePath _
            (fsLookup_delete_self _ _))
        rw [hfin]
        refine ⟨fun _ => ?_, fun hne2 => absurd ?_ hne2⟩ <;>
          rw [hrestored]
      · have hfin := core_inner_ok op fs _ _ _ _ hctx hi
        rw [hfin]
        have hlook : fsLookup (fsDelete (fsWrite fs (op.filePath ++ ".bak") c0)
            (op.filePath ++ ".bak")) op.filePath = some c0 := by
          rw [fsLookup_delete_other _ _ _ hne, hl0]
        exact ⟨fun _ => hlook, fun hne2 => absurd hlook hne2⟩
      · have hfin := core_inner_ok op fs _ _ _ _ hctx hi
        rw [hfin]
        exact ⟨fun _ => hrestored, fun hne2 => absurd hrestored hne2⟩
      · have hfin := core_inner_ok op fs _ _ _ _ hctx hi
        rw [hfin]
        exact ⟨fun _ => hl0, fun hne2 => absurd hl0 hne2⟩
      · have hfin := core_inner_ok op fs _ _ _ _ hctx hi
        rw [hfin]
        refine ⟨fun hs => ?_, fun _ => ⟨rfl, hch, ?_⟩⟩
        · simp [successResult] at hs
        · simp [successResult]
  · have hbk' : tb op.createBackup = false := by
      simpa using hbk
    have hctx := hctx_nobackup op fs hbk'
    rcases inner_none_cases op fs with
      ⟨e, hi⟩ | ⟨c, nc, ch, confl, hi⟩ | ⟨c, nc, ch, hch, hi⟩
    · have hfin := core_inner_error op fs fs fs fs ⟨none, none⟩ e hctx hi (rollbackS_none fs)
      rw [hfin]
      exact ⟨fun _ => rfl, fun hne2 => absurd rfl hne2⟩
    · have hfin := core_inner_ok op fs fs fs ⟨none, none⟩ _ hctx hi
      rw [hfin]
      exact ⟨fun hs => by simp [successResult] at hs, fun hne2 => absurd rfl hne2⟩
    · have hfin := core_inner_ok op fs fs _ ⟨none, none⟩ _ hctx hi
      rw [hfin]
      refine ⟨fun hs => ?_, fun _ => ⟨rfl, hch, ?_⟩⟩
      · simp [successResult] at hs
      · simp [successResult]

/-- Witness for `claim2_write_gate`: the failing result of the missing-file
scenario leaves the (absent) target untouched. -/
theorem claim2_write_gate_witness :
    fsLookup (applyPatchCore opC2 ([] : FS)).2 "g" = fsLookup ([] : FS) "g" :=
  (claim2_write_gate opC2 ([] : FS)).1 (by decide)

/-! ## C10: the line-count verification gate -/

/-- **C10.** The undocumented verification gate of line operations:
`verifyLineChanges` accepts exactly when the absolute difference of the
`\n`-split line counts is at most the number of blank
(whitespace-only) lines of the original.  Deleting one non-blank line of
the blank-line-free file `"foo\nbar"` passes the strategy (one change,
no conflicts) but fails the gate, so the whole operation returns
`success = false`, `error = "Change verification failed"`,
`changesApplied = 0`, and the file is unchanged. -/
theorem claim10_verification_gate :
    (∀ original modified : Str,
      verifyLineChanges original modified = true ↔
        ((((splitNl original).length : ℤ) - ((splitNl modified).length : ℤ)).natAbs : ℕ) ≤
          ((splitNl original).filter isBlankLine).length) ∧
    dispatchStrategy op10 (str "foo\nbar") DEFAULT_WHITESPACE_CONFIG
      = .ok (str "bar", 1, []) ∧
    ((splitNl (str "foo\nbar")).filter isBlankLine).length = 0 ∧
    verifyLineChanges (str "foo\nbar") (str "bar") = false ∧
    applyPatchCore op10 fs10 = (failResult op10 "Change verification failed", fs10) :=
  ⟨fun original modified => by simp [verifyLineChanges],
    by decide, by decide, by decide, by decide⟩

/-- Witness for `claim10_verification_gate`: the gate accepts deleting one
line of a file with one blank line. -/
theorem claim10_verification_gate_witness :
    verifyLineChanges (str "a\n\nb") (str "a\nb") = true :=
  (claim10_verification_gate.1 (str "a\n\nb") (str "a\nb")).mpr (by decide)

end FileOps
